import Mathlib

/-!
Shallow embedding of `Setup.command` from `mailpile/plugins/setup_magic.py`
(the initial-setup bootstrap command of Mailpile), together with proofs of
the behavioural properties claimed for it: idempotence of re-running setup,
uniqueness and canonicity of the created tag taxonomy, the one-time index
obfuscation decision, first-writer-wins recipient-key discovery, revocation
filtering, profile de-duplication, the lockdown guard, the failure behaviour
of the tag-reconciliation loop and of the profile-creation branch, and the
persistence points of a run.

The configuration store, the keyring client, the plugin list, the tag
command and the digest helper are external collaborators of the command;
where their code is not part of the analysed sources they are modelled from
the specification, and each such definition is marked in its doc comment.
-/

namespace Mailpile

/-- Value of a tag attribute: Python dict values in the `Setup.TAGS` table
are strings, booleans or integers. -/
inductive AttrVal where
  | s (v : String)
  | b (v : Bool)
  | n (v : Nat)
deriving DecidableEq, Repr

/-- Attribute dictionary of a tag, modelling a Python dict as an ordered
association list (insertion order preserved, as in the tag objects). -/
abbrev Attrs := List (String × AttrVal)

/-- One tag of the tag store, identified by its key/slug. -/
structure Tag where
  slug : String
  attrs : Attrs
deriving DecidableEq, Repr

/-- One entry of `session.config.profiles`: the dict built at
setup_magic.py lines 249-252. -/
structure Profile where
  email : String
  name : String
deriving DecidableEq, Repr

/-- One entry of `session.config.prefs.vcard.importers.gravatar`
(setup_magic.py line 203). -/
structure GravatarImporter where
  active : Bool
deriving DecidableEq, Repr

/-- One entry of `session.config.prefs.vcard.importers.gpg`
(setup_magic.py lines 208-209). -/
structure GpgImporter where
  active : Bool
  gpg_home : String
deriving DecidableEq, Repr

/-- One entry of `session.config.prefs.autotag`: the rule appended at
setup_magic.py lines 214-220, with the `exclude_tags[0] = 'ham'`
assignment folded into the record. -/
structure AutotagRule where
  match_tag : String
  unsure_tag : String
  tagger : String
  trainer : String
  exclude_tags : List String
deriving DecidableEq, Repr

/-- The slice of `session.config` read and written by `Setup.command`. -/
structure Config where
  lockdown : Bool
  tags : List Tag
  plugins : List String
  vcardGravatar : List GravatarImporter
  vcardGpg : List GpgImporter
  autotag : List AutotagRule
  profiles : List Profile
  gpg_recipient : String
  crypto_policy : String
  obfuscate_index : String
  index_encrypted : Bool
deriving DecidableEq, Repr

/-- One uid record of a secret key as returned by
`GnuPG.list_secret_keys`: the `email` and `name` dict entries may be
absent, which the command observes via `in` checks and KeyError. -/
structure Uid where
  email : Option String
  name : Option String
deriving DecidableEq, Repr

/-- Details of one secret key as consumed by the command:
an optional revocation-date string, the `capabilities.encrypt` flag and
the ordered uid list. -/
structure KeyDetails where
  revocationDate : Option String
  capEncrypt : Bool
  uids : List Uid
deriving DecidableEq, Repr

/-- External, read-only state of one invocation: todays date,
availability probes, the keyring listing in enumeration order, the index
state, the entropy and clock inputs of the salt, and the set of tag keys
whose creation command raises (modelling a failing `AddTag`). -/
structure Env where
  today : String
  spambayesInstalled : Bool
  gpgHomeExists : Bool
  gpgHome : String
  gnupgAvailable : Bool
  keys : List (String × KeyDetails)
  indexBuilt : Bool
  urandom : String
  timeNow : String
  addTagFails : List String
deriving DecidableEq, Repr

/-- Observable side channel of a run: user notifications and warnings,
and the persistence operations on the config store. -/
inductive Event where
  | notify (msg : String)
  | warning (msg : String)
  | configSave
  | configLoad
deriving DecidableEq, Repr

/-- Python `d[k] = v` on an attribute dict: overwrite the entry in place
when the key is present, append it otherwise. -/
def dictSet (d : Attrs) (k : String) (v : AttrVal) : Attrs :=
  if d.any (fun p => p.1 == k) then
    d.map (fun p => if p.1 == k then (k, v) else p)
  else d ++ [(k, v)]

/-- Python `d.update(u)`: set every entry of `u` in order. -/
def dictUpdate (d : Attrs) (u : Attrs) : Attrs :=
  u.foldl (fun acc p => dictSet acc p.1 p.2) d

/-- The canonical tag taxonomy `Setup.TAGS` of setup_magic.py lines
26-148, in the order of the literal. -/
def TAGS : List (String × Attrs) :=
  [ ("New",
     [("type", .s "unread"), ("label", .b false), ("display", .s "invisible"),
      ("icon", .s "icon-new"), ("label_color", .s "03-gray-dark"),
      ("name", .s "New")]),
    ("Inbox",
     [("type", .s "inbox"), ("display", .s "priority"), ("display_order", .n 2),
      ("icon", .s "icon-inbox"), ("label_color", .s "06-blue"),
      ("name", .s "Inbox")]),
    ("Blank",
     [("type", .s "blank"), ("flag_editable", .b true),
      ("display", .s "invisible"), ("name", .s "Blank")]),
    ("Drafts",
     [("type", .s "drafts"), ("flag_editable", .b true),
      ("display", .s "priority"), ("display_order", .n 1),
      ("icon", .s "icon-compose"), ("label_color", .s "03-gray-dark"),
      ("name", .s "Drafts")]),
    ("Outbox",
     [("type", .s "outbox"), ("display", .s "priority"), ("display_order", .n 3),
      ("icon", .s "icon-outbox"), ("label_color", .s "06-blue"),
      ("name", .s "Outbox")]),
    ("Sent",
     [("type", .s "sent"), ("display", .s "priority"), ("display_order", .n 4),
      ("icon", .s "icon-sent"), ("label_color", .s "03-gray-dark"),
      ("name", .s "Sent")]),
    ("Spam",
     [("type", .s "spam"), ("flag_hides", .b true), ("display", .s "priority"),
      ("display_order", .n 5), ("icon", .s "icon-spam"),
      ("label_color", .s "10-orange"), ("name", .s "Spam")]),
    ("MaybeSpam",
     [("display", .s "invisible"), ("icon", .s "icon-spam"),
      ("label_color", .s "10-orange"), ("name", .s "MaybeSpam")]),
    ("Ham",
     [("type", .s "ham"), ("display", .s "invisible"), ("name", .s "Ham")]),
    ("Trash",
     [("type", .s "trash"), ("flag_hides", .b true), ("display", .s "priority"),
      ("display_order", .n 6), ("icon", .s "icon-trash"),
      ("label_color", .s "13-brown"), ("name", .s "Trash")]),
    ("All Mail",
     [("type", .s "tag"), ("icon", .s "icon-logo"), ("label_color", .s "06-blue"),
      ("search_terms", .s "all:mail"), ("name", .s "All Mail"),
      ("display_order", .n 1000)]),
    ("Photos",
     [("type", .s "tag"), ("icon", .s "icon-photos"),
      ("label_color", .s "08-green"), ("search_terms", .s "att:jpg"),
      ("name", .s "Photos"), ("template", .s "photos"),
      ("display_order", .n 1001)]),
    ("Files",
     [("type", .s "tag"), ("icon", .s "icon-document"),
      ("label_color", .s "06-blue"), ("search_terms", .s "has:attachment"),
      ("name", .s "Files"), ("template", .s "files"),
      ("display_order", .n 1002)]),
    ("Links",
     [("type", .s "tag"), ("icon", .s "icon-links"),
      ("label_color", .s "12-red"), ("search_terms", .s "http"),
      ("name", .s "Links"), ("display_order", .n 1003)]),
    ("mp_rpl",
     [("type", .s "replied"), ("label", .b false), ("display", .s "invisible")]),
    ("mp_fwd",
     [("type", .s "fwded"), ("label", .b false), ("display", .s "invisible")]),
    ("mp_tag",
     [("type", .s "tagged"), ("label", .b false), ("display", .s "invisible")]),
    ("mp_read",
     [("type", .s "read"), ("label", .b false), ("display", .s "invisible")]),
    ("mp_ham",
     [("type", .s "ham"), ("label", .b false), ("display", .s "invisible")]) ]

/-- Modelled from the spec: `SignatureInfo.STATUSES` lives in
`mailpile.crypto.gpgi`, which is not among the analysed sources; the spec
only requires a fixed enumeration of signature-verification statuses. -/
def sigStatuses : List String := ["none", "error", "unknown", "unverified", "verified"]

/-- Modelled from the spec: `EncryptionInfo.STATUSES` lives in
`mailpile.crypto.gpgi`, which is not among the analysed sources; the spec
only requires a fixed enumeration of encryption statuses. -/
def encStatuses : List String := ["none", "decrypted", "missingkey", "error"]

/-- Attribute dict applied to every generated attribute tag
(setup_magic.py lines 176-180). -/
def attributeTagAttrs : Attrs :=
  [("type", .s "attribute"), ("display", .s "invisible"), ("label", .b false)]

/-- The generated attribute-tag entries `mp_sig-<status>` and
`mp_enc-<status>` (setup_magic.py lines 169-180), in loop order. -/
def attributeTagEntries : List (String × Attrs) :=
  (sigStatuses.map (fun st => ("mp_sig-" ++ st, attributeTagAttrs))) ++
  (encStatuses.map (fun st => ("mp_enc-" ++ st, attributeTagAttrs)))

/-- The full canonical taxonomy processed by one run: the fixed `TAGS`
table followed by the generated attribute tags. -/
def canonicalTable : List (String × Attrs) := TAGS ++ attributeTagEntries

/-- Modelled from the spec: `mailpile.plugins.__all__`, the list of
builtin plugin module names, is not among the analysed sources; the spec
only requires a fixed list of optional subsystem modules, which notably
does not already contain the separately probed `autotag_sb`. -/
def PLUGINS : List String := ["search", "tags", "contacts", "compose"]

/-- Truthiness of `session.config.get_tag_id(t)`: whether a tag with this
key exists in the tag store. -/
def getTagId (tags : List Tag) (t : String) : Bool :=
  tags.any (fun tg => tg.slug == t)

/-- Modelled from the spec: `AddTag` lives in `mailpile.plugins.tags`,
which is not among the analysed sources; the spec contract is
`createTag(key)`, creating one tag with the given key. -/
def addTag (tags : List Tag) (t : String) : List Tag := tags ++ [⟨t, []⟩]

/-- Python `session.config.get_tag(t).update(u)`: merge `u` into the
attribute dict of the first tag whose slug is `t`. -/
def updateTag : List Tag → String → Attrs → List Tag
  | [], _, _ => []
  | tg :: rest, t, u =>
    if tg.slug == t then ⟨tg.slug, dictUpdate tg.attrs u⟩ :: rest
    else tg :: updateTag rest t u

/-- State threaded through the tag-reconciliation loops: the tag store
and the `created` list of setup_magic.py line 163. -/
structure TagSt where
  tags : List Tag
  created : List String
deriving DecidableEq, Repr

/-- One iteration of the tag-reconciliation loop (setup_magic.py lines
164-168 and 171-180): create the tag if absent (an exception from the
creation command propagates), then update its attributes. -/
def tagStep (env : Env) (ts : TagSt) (e : String × Attrs) : Except (String × TagSt) TagSt :=
  if getTagId ts.tags e.1 then
    .ok ⟨updateTag ts.tags e.1 e.2, ts.created⟩
  else if env.addTagFails.contains e.1 then
    .error ("AddTag failed: " ++ e.1, ts)
  else
    .ok ⟨updateTag (addTag ts.tags e.1) e.1 e.2, ts.created ++ [e.1]⟩

/-- The tag-reconciliation loop over a list of taxonomy entries; an
exception aborts the loop, keeping the mutations made so far. -/
def tagLoop (env : Env) : List (String × Attrs) → TagSt → Except (String × TagSt) TagSt
  | [], ts => .ok ts
  | e :: rest, ts =>
    match tagStep env ts e with
    | .ok ts2 => tagLoop env rest ts2
    | .error err => .error err

/-- State of a run: the config plus the events emitted so far. -/
structure St where
  cfg : Config
  events : List Event
deriving DecidableEq, Repr

/-- Tag stage of the command (setup_magic.py lines 162-183): reconcile
the canonical taxonomy, then notify once if the New tag was created. -/
def tagStage (env : Env) (st : St) : Except (String × St) St :=
  match tagLoop env canonicalTable ⟨st.cfg.tags, []⟩ with
  | .error (m, ts) => .error (m, ⟨{ st.cfg with tags := ts.tags }, st.events⟩)
  | .ok ts =>
    let ev := if ts.created.contains "New" then
                st.events ++ [.notify "Created default tags"]
              else st.events
    .ok ⟨{ st.cfg with tags := ts.tags }, ev⟩

/-- Append each element of `ys` missing from `xs`, in order. -/
def appendMissing (xs ys : List String) : List String :=
  ys.foldl (fun acc p => if acc.contains p then acc else acc ++ [p]) xs

/-- Plugin stage (setup_magic.py lines 186-197): enable all builtin
plugins, then probe the spambayes autotagger. -/
def pluginStage (env : Env) (st : St) : St :=
  let plugins := appendMissing st.cfg.plugins PLUGINS
  if env.spambayesInstalled then
    if plugins.contains "autotag_sb" then
      ⟨{ st.cfg with plugins := plugins }, st.events⟩
    else
      ⟨{ st.cfg with plugins := plugins ++ ["autotag_sb"] },
       st.events ++ [.notify "Enabling spambayes autotagger"]⟩
  else
    ⟨{ st.cfg with plugins := plugins },
     st.events ++ [.warning "Please install spambayes for super awesome spam filtering"]⟩

/-- Vcard importer stage (setup_magic.py lines 201-210): enable the
gravatar importer when its list is empty, and the gpg keyring importer
when the keyring home exists and its list is empty. -/
def vcardStage (env : Env) (st : St) : St :=
  let st1 :=
    if st.cfg.vcardGravatar.isEmpty then
      St.mk { st.cfg with vcardGravatar := st.cfg.vcardGravatar ++ [⟨true⟩] }
            (st.events ++ [.notify "Enabling gravatar image importer"])
    else st
  if env.gpgHomeExists && st1.cfg.vcardGpg.isEmpty then
    St.mk { st1.cfg with vcardGpg := st1.cfg.vcardGpg ++ [⟨true, env.gpgHome⟩] }
          (st1.events ++ [.notify "Importing contacts from GPG keyring"])
  else st1

/-- Autotag stage (setup_magic.py lines 212-220): create the default
spam autotagging rule when the spambayes plugin is active and no rule
exists; the `exclude_tags[0]` assignment is folded into the record. -/
def autotagStage (st : St) : St :=
  if st.cfg.plugins.contains "autotag_sb" && st.cfg.autotag.length == 0 then
    St.mk { st.cfg with autotag := st.cfg.autotag ++
             [⟨"spam", "maybespam", "spambayes", "spambayes", ["ham"]⟩] }
          st.events
  else st

/-- Lexicographic code-point comparison of character lists, the order
underlying Python string comparison. -/
def charListLt : List Char → List Char → Bool
  | [], [] => false
  | [], _ :: _ => true
  | _ :: _, [] => false
  | a :: as, b :: bs => if a < b then true else if b < a then false else charListLt as bs

/-- Python string comparison `a <= b` on the ISO date strings, as used by
the revocation check. -/
def strLe (a b : String) : Bool := a == b || charListLt a.data b.data

/-- Revocation check of setup_magic.py lines 233-236: a key is skipped
when it carries a revocation date on or before today. -/
def isRevoked (today : String) (d : KeyDetails) : Bool :=
  match d.revocationDate with
  | some r => strLe r today
  | none => false

/-- Emails of the current profile list, as enumerated by the membership
check at setup_magic.py lines 243-244. -/
def profileEmails (ps : List Profile) : List String := ps.map Profile.email

/-- One iteration of the uid loop (setup_magic.py lines 239-253): skip a
uid with no or empty email, skip an already-registered email, otherwise
read the name (KeyError when absent) and append the profile. -/
def uidStep (cfg : Config) (uid : Uid) : Except String Config :=
  match uid.email with
  | none => .ok cfg
  | some e =>
    if e == "" then .ok cfg
    else if (profileEmails cfg.profiles).contains e then .ok cfg
    else
      match uid.name with
      | none => .error "KeyError: name"
      | some n => .ok { cfg with profiles := cfg.profiles ++ [⟨e, n⟩] }

/-- The uid loop of one key; a KeyError aborts the loop, keeping the
profiles appended so far. -/
def uidLoop : List Uid → Config → Except (String × Config) Config
  | [], cfg => .ok cfg
  | u :: rest, cfg =>
    match uidStep cfg u with
    | .ok cfg2 => uidLoop rest cfg2
    | .error m => .error (m, cfg)

/-- State threaded through the key loop: config, events and the
`accepted_keys` list of setup_magic.py line 228. -/
structure DiscoSt where
  cfg : Config
  events : List Event
  accepted : List String
deriving DecidableEq, Repr

/-- One iteration of the key loop (setup_magic.py lines 231-259): skip
revoked keys entirely; otherwise record the key as accepted, run the uid
loop, set the recipient key if still unset and the key can encrypt, and
upgrade the crypto policy from none to openpgp-sign. -/
def keyStep (env : Env) (ds : DiscoSt) (e : String × KeyDetails) : Except (String × DiscoSt) DiscoSt :=
  if isRevoked env.today e.2 then .ok ds
  else
    let accepted := ds.accepted ++ [e.1]
    match uidLoop e.2.uids ds.cfg with
    | .error (m, cfg2) => .error (m, ⟨cfg2, ds.events, accepted⟩)
    | .ok cfg2 =>
      let recip := cfg2.gpg_recipient == "" && e.2.capEncrypt
      let cfg3 := if recip then { cfg2 with gpg_recipient := e.1 } else cfg2
      let ev3 := if recip then ds.events ++ [.notify ("Encrypting config to " ++ e.1)]
                 else ds.events
      let cfg4 := if cfg3.crypto_policy == "none" then
                    { cfg3 with crypto_policy := "openpgp-sign" }
                  else cfg3
      .ok ⟨cfg4, ev3, accepted⟩

/-- The key loop over the keyring listing in enumeration order. -/
def keyLoop (env : Env) : List (String × KeyDetails) → DiscoSt → Except (String × DiscoSt) DiscoSt
  | [], ds => .ok ds
  | e :: rest, ds =>
    match keyStep env ds e with
    | .ok ds2 => keyLoop env rest ds2
    | .error err => .error err

/-- Discovery stage (setup_magic.py lines 227-267): warn and skip when
GnuPG is unavailable, otherwise process every listed secret key; a run
with zero accepted keys is an explicit no-op. -/
def discoveryStage (env : Env) (st : St) : Except (String × St) St :=
  if env.gnupgAvailable then
    match keyLoop env env.keys ⟨st.cfg, st.events, []⟩ with
    | .error (m, ds) => .error (m, ⟨ds.cfg, ds.events⟩)
    | .ok ds => .ok ⟨ds.cfg, ds.events⟩
  else
    .ok ⟨st.cfg, st.events ++ [.warning "Oh no, PGP/GPG support is unavailable!"]⟩

/-- Modelled from the spec: `sha512b64` lives in `mailpile.util`, which
is not among the analysed sources; the spec requires a one-way digest of
the entropy block, the recipient key id and the current time, producing
an opaque, never-empty salt string. -/
def sha512b64 (data key t : String) : String :=
  "b64:" ++ data ++ ":" ++ key ++ ":" ++ t

/-- One-time obfuscation decision (setup_magic.py lines 269-278):
trigger exactly when a recipient key is set, no index has been built and
the salt is still empty; then store the salt and set the encrypted-index
flag. -/
def obfuscationStage (env : Env) (st : St) : St :=
  if st.cfg.gpg_recipient != "" && !env.indexBuilt && st.cfg.obfuscate_index == "" then
    St.mk { st.cfg with
             obfuscate_index := sha512b64 env.urandom st.cfg.gpg_recipient env.timeNow,
             index_encrypted := true }
          (st.events ++ [.notify "Obfuscating search index and enabling indexing of encrypted e-mail. "])
  else st

/-- Result of one invocation of the command. -/
inductive Outcome where
  | success (msg : String)
  | error (msg : String)
deriving DecidableEq, Repr

/-- Result record: the outcome, the final config and the event trace. -/
structure RunResult where
  outcome : Outcome
  cfg : Config
  events : List Event
deriving DecidableEq, Repr

/-- The whole `Setup.command` (setup_magic.py lines 150-284). The two
`Migrate(session).run` calls and `open_local_mailbox` are external
collaborators that do not touch the modelled config slice and are
modelled as the identity; `config.load` after the first save reloads the
state just saved and is likewise the identity on the config. An uncaught
exception surfaces as an error outcome carrying the partial state. -/
def run (env : Env) (cfg : Config) : RunResult :=
  if cfg.lockdown then ⟨.error "In lockdown, doing nothing.", cfg, []⟩
  else
    match tagStage env ⟨cfg, []⟩ with
    | .error (m, st) => ⟨.error m, st.cfg, st.events⟩
    | .ok st1 =>
      let st2 := pluginStage env st1
      let st3 : St := ⟨st2.cfg, st2.events ++ [.configSave, .configLoad]⟩
      let st4 := vcardStage env st3
      let st5 := autotagStage st4
      match discoveryStage env st5 with
      | .error (m, st) => ⟨.error m, st.cfg, st.events⟩
      | .ok st6 =>
        let st7 := obfuscationStage env st6
        ⟨.success "Performed initial Mailpile setup", st7.cfg, st7.events ++ [.configSave]⟩

/-- Iterated runs of the command, succeeding only when every run
succeeds; used to state properties that hold after any number of runs. -/
def runs : List Env → Config → Option Config
  | [], cfg => some cfg
  | e :: es, cfg =>
    match run e cfg with
    | ⟨.success _, cfg2, _⟩ => runs es cfg2
    | _ => none

/-- State reached by a stage, whether it completed or raised. -/
def stOf : Except (String × St) St → St
  | .ok s => s
  | .error (_, s) => s

/-- Config reached by the uid loop, whether it completed or raised. -/
def cfgOfU : Except (String × Config) Config → Config
  | .ok c => c
  | .error (_, c) => c

/-- Discovery state reached by the key loop, whether it completed or
raised. -/
def dsOf : Except (String × DiscoSt) DiscoSt → DiscoSt
  | .ok d => d
  | .error (_, d) => d

/-! Frame lemmas: each stage only writes its own config fields. -/

/-- Fields of the config that the tag stage leaves untouched. -/
theorem tagStage_keeps (env : Env) (st : St) :
    (stOf (tagStage env st)).cfg.lockdown = st.cfg.lockdown ∧
    (stOf (tagStage env st)).cfg.plugins = st.cfg.plugins ∧
    (stOf (tagStage env st)).cfg.vcardGravatar = st.cfg.vcardGravatar ∧
    (stOf (tagStage env st)).cfg.vcardGpg = st.cfg.vcardGpg ∧
    (stOf (tagStage env st)).cfg.autotag = st.cfg.autotag ∧
    (stOf (tagStage env st)).cfg.profiles = st.cfg.profiles ∧
    (stOf (tagStage env st)).cfg.gpg_recipient = st.cfg.gpg_recipient ∧
    (stOf (tagStage env st)).cfg.crypto_policy = st.cfg.crypto_policy ∧
    (stOf (tagStage env st)).cfg.obfuscate_index = st.cfg.obfuscate_index ∧
    (stOf (tagStage env st)).cfg.index_encrypted = st.cfg.index_encrypted := by
  unfold tagStage
  cases h : tagLoop env canonicalTable ⟨st.cfg.tags, []⟩ with
  | ok ts => simp [stOf]
  | error e => obtain ⟨m, ts⟩ := e; simp [stOf]

/-- Fields of the config that the plugin stage leaves untouched. -/
theorem pluginStage_keeps (env : Env) (st : St) :
    (pluginStage env st).cfg.lockdown = st.cfg.lockdown ∧
    (pluginStage env st).cfg.tags = st.cfg.tags ∧
    (pluginStage env st).cfg.vcardGravatar = st.cfg.vcardGravatar ∧
    (pluginStage env st).cfg.vcardGpg = st.cfg.vcardGpg ∧
    (pluginStage env st).cfg.autotag = st.cfg.autotag ∧
    (pluginStage env st).cfg.profiles = st.cfg.profiles ∧
    (pluginStage env st).cfg.gpg_recipient = st.cfg.gpg_recipient ∧
    (pluginStage env st).cfg.crypto_policy = st.cfg.crypto_policy ∧
    (pluginStage env st).cfg.obfuscate_index = st.cfg.obfuscate_index ∧
    (pluginStage env st).cfg.index_encrypted = st.cfg.index_encrypted := by
  unfold pluginStage
  cases h1 : env.spambayesInstalled
  · simp [h1]
  · simp only [h1, if_true]
    split <;> simp

/-- Fields of the config that the vcard-importer stage leaves
untouched. -/
theorem vcardStage_keeps (env : Env) (st : St) :
    (vcardStage env st).cfg.lockdown = st.cfg.lockdown ∧
    (vcardStage env st).cfg.tags = st.cfg.tags ∧
    (vcardStage env st).cfg.plugins = st.cfg.plugins ∧
    (vcardStage env st).cfg.autotag = st.cfg.autotag ∧
    (vcardStage env st).cfg.profiles = st.cfg.profiles ∧
    (vcardStage env st).cfg.gpg_recipient = st.cfg.gpg_recipient ∧
    (vcardStage env st).cfg.crypto_policy = st.cfg.crypto_policy ∧
    (vcardStage env st).cfg.obfuscate_index = st.cfg.obfuscate_index ∧
    (vcardStage env st).cfg.index_encrypted = st.cfg.index_encrypted := by
  unfold vcardStage
  by_cases h1 : st.cfg.vcardGravatar.isEmpty <;> simp [h1] <;> split <;> simp

/-- Fields of the config that the autotag stage leaves untouched. -/
theorem autotagStage_keeps (st : St) :
    (autotagStage st).cfg.lockdown = st.cfg.lockdown ∧
    (autotagStage st).cfg.tags = st.cfg.tags ∧
    (autotagStage st).cfg.plugins = st.cfg.plugins ∧
    (autotagStage st).cfg.vcardGravatar = st.cfg.vcardGravatar ∧
    (autotagStage st).cfg.vcardGpg = st.cfg.vcardGpg ∧
    (autotagStage st).cfg.profiles = st.cfg.profiles ∧
    (autotagStage st).cfg.gpg_recipient = st.cfg.gpg_recipient ∧
    (autotagStage st).cfg.crypto_policy = st.cfg.crypto_policy ∧
    (autotagStage st).cfg.obfuscate_index = st.cfg.obfuscate_index ∧
    (autotagStage st).cfg.index_encrypted = st.cfg.index_encrypted := by
  unfold autotagStage
  split <;> simp

/-- Fields of the config that the obfuscation stage leaves untouched. -/
theorem obfuscationStage_keeps (env : Env) (st : St) :
    (obfuscationStage env st).cfg.lockdown = st.cfg.lockdown ∧
    (obfuscationStage env st).cfg.tags = st.cfg.tags ∧
    (obfuscationStage env st).cfg.plugins = st.cfg.plugins ∧
    (obfuscationStage env st).cfg.vcardGravatar = st.cfg.vcardGravatar ∧
    (obfuscationStage env st).cfg.vcardGpg = st.cfg.vcardGpg ∧
    (obfuscationStage env st).cfg.autotag = st.cfg.autotag ∧
    (obfuscationStage env st).cfg.profiles = st.cfg.profiles ∧
    (obfuscationStage env st).cfg.gpg_recipient = st.cfg.gpg_recipient ∧
    (obfuscationStage env st).cfg.crypto_policy = st.cfg.crypto_policy := by
  unfold obfuscationStage
  split <;> simp

theorem uidStep_spec (cfg : Config) (u : Uid) :
    (∀ cfg2, uidStep cfg u = .ok cfg2 →
      ∃ new, cfg2 = { cfg with profiles := cfg.profiles ++ new }) ∧
    (∀ m, uidStep cfg u = .error m → m = "KeyError: name") := by
  constructor
  · intro cfg2 h
    unfold uidStep at h
    split at h
    · exact ⟨[], by cases h; simp⟩
    · split at h
      · exact ⟨[], by cases h; simp⟩
      · split at h
        · exact ⟨[], by cases h; simp⟩
        · split at h
          · cases h
          · cases h; exact ⟨_, rfl⟩
  · intro m h
    unfold uidStep at h
    split at h
    · cases h
    · split at h
      · cases h
      · split at h
        · cases h
        · split at h
          · cases h; rfl
          · cases h

theorem uidLoop_spec (us : List Uid) (cfg : Config) :
    ∃ new, cfgOfU (uidLoop us cfg) = { cfg with profiles := cfg.profiles ++ new } := by
  induction us generalizing cfg with
  | nil => exact ⟨[], by simp [uidLoop, cfgOfU]⟩
  | cons u rest ih =>
    unfold uidLoop
    cases h : uidStep cfg u with
    | ok cfg2 =>
      obtain ⟨n1, h1⟩ := (uidStep_spec cfg u).1 cfg2 h
      obtain ⟨n2, h2⟩ := ih cfg2
      refine ⟨n1 ++ n2, ?_⟩
      rw [h2, h1]
      simp
    | error m => exact ⟨[], by simp [cfgOfU]⟩

theorem keyStep_spec (env : Env) (ds : DiscoSt) (e : String × KeyDetails) :
    ∃ new, (dsOf (keyStep env ds e)).cfg =
      { ds.cfg with
          profiles := ds.cfg.profiles ++ new,
          gpg_recipient := (dsOf (keyStep env ds e)).cfg.gpg_recipient,
          crypto_policy := (dsOf (keyStep env ds e)).cfg.crypto_policy } := by
  unfold keyStep
  by_cases hr : isRevoked env.today e.2
  · exact ⟨[], by simp [hr, dsOf]⟩
  · simp only [hr, if_false, Bool.false_eq_true]
    cases hu : uidLoop e.2.uids ds.cfg with
    | ok cfg2 =>
      obtain ⟨n1, h1⟩ := uidLoop_spec e.2.uids ds.cfg
      rw [hu] at h1
      simp only [cfgOfU] at h1
      subst h1
      refine ⟨n1, ?_⟩
      cases hA : (ds.cfg.gpg_recipient == "" && e.2.capEncrypt) <;>
        cases hB : (ds.cfg.crypto_policy == "none") <;>
        simp [dsOf, hA, hB]
    | error err =>
      obtain ⟨m, cfg2⟩ := err
      obtain ⟨n1, h1⟩ := uidLoop_spec e.2.uids ds.cfg
      rw [hu] at h1
      simp only [cfgOfU] at h1
      exact ⟨n1, by simp [dsOf, h1]⟩

theorem keyLoop_spec (env : Env) (ks : List (String × KeyDetails)) (ds : DiscoSt) :
    ∃ new, (dsOf (keyLoop env ks ds)).cfg =
      { ds.cfg with
          profiles := ds.cfg.profiles ++ new,
          gpg_recipient := (dsOf (keyLoop env ks ds)).cfg.gpg_recipient,
          crypto_policy := (dsOf (keyLoop env ks ds)).cfg.crypto_policy } := by
  induction ks generalizing ds with
  | nil => exact ⟨[], by simp [keyLoop, dsOf]⟩
  | cons e rest ih =>
    unfold keyLoop
    cases h : keyStep env ds e with
    | ok ds2 =>
      obtain ⟨n1, h1⟩ := keyStep_spec env ds e
      rw [h] at h1
      simp only [dsOf] at h1
      obtain ⟨n2, h2⟩ := ih ds2
      refine ⟨n1 ++ n2, ?_⟩
      rw [h2, h1]
      simp
    | error err =>
      obtain ⟨n1, h1⟩ := keyStep_spec env ds e
      rw [h] at h1
      exact ⟨n1, h1⟩

theorem discoveryStage_spec (env : Env) (st : St) :
    ∃ new, (stOf (discoveryStage env st)).cfg =
      { st.cfg with
          profiles := st.cfg.profiles ++ new,
          gpg_recipient := (stOf (discoveryStage env st)).cfg.gpg_recipient,
          crypto_policy := (stOf (discoveryStage env st)).cfg.crypto_policy } := by
  unfold discoveryStage
  by_cases hg : env.gnupgAvailable
  · simp only [hg, if_true]
    cases h : keyLoop env env.keys ⟨st.cfg, st.events, []⟩ with
    | ok ds =>
      obtain ⟨n1, h1⟩ := keyLoop_spec env env.keys ⟨st.cfg, st.events, []⟩
      rw [h] at h1
      simp only [dsOf] at h1
      exact ⟨n1, by simpa [stOf] using h1⟩
    | error err =>
      obtain ⟨m, ds⟩ := err
      obtain ⟨n1, h1⟩ := keyLoop_spec env env.keys ⟨st.cfg, st.events, []⟩
      rw [h] at h1
      simp only [dsOf] at h1
      exact ⟨n1, by simpa [stOf] using h1⟩
  · exact ⟨[], by simp [hg, stOf]⟩

/-- Fields of the config that the discovery stage leaves untouched. -/
theorem discoveryStage_keeps (env : Env) (st : St) :
    (stOf (discoveryStage env st)).cfg.lockdown = st.cfg.lockdown ∧
    (stOf (discoveryStage env st)).cfg.tags = st.cfg.tags ∧
    (stOf (discoveryStage env st)).cfg.plugins = st.cfg.plugins ∧
    (stOf (discoveryStage env st)).cfg.vcardGravatar = st.cfg.vcardGravatar ∧
    (stOf (discoveryStage env st)).cfg.vcardGpg = st.cfg.vcardGpg ∧
    (stOf (discoveryStage env st)).cfg.autotag = st.cfg.autotag ∧
    (stOf (discoveryStage env st)).cfg.obfuscate_index = st.cfg.obfuscate_index ∧
    (stOf (discoveryStage env st)).cfg.index_encrypted = st.cfg.index_encrypted := by
  obtain ⟨new, hs⟩ := discoveryStage_spec env st
  exact ⟨by simpa using congrArg Config.lockdown hs,
         by simpa using congrArg Config.tags hs,
         by simpa using congrArg Config.plugins hs,
         by simpa using congrArg Config.vcardGravatar hs,
         by simpa using congrArg Config.vcardGpg hs,
         by simpa using congrArg Config.autotag hs,
         by simpa using congrArg Config.obfuscate_index hs,
         by simpa using congrArg Config.index_encrypted hs⟩

/-- The obfuscation stage is a no-op once the salt is non-empty. -/
theorem obfuscationStage_skip (env : Env) (st : St)
    (h : ¬ st.cfg.obfuscate_index = "") :
    obfuscationStage env st = st := by
  unfold obfuscationStage
  rw [if_neg]
  simp [h]

/-- The digest used for the obfuscation salt is never the empty
string. -/
theorem sha512b64_ne_empty (a b c : String) : ¬ sha512b64 a b c = "" := by
  intro h
  have h2 := congrArg String.length h
  have e1 : ("b64:" : String).length = 4 := rfl
  have e2 : (":" : String).length = 1 := rfl
  have e3 : ("" : String).length = 0 := rfl
  simp only [sha512b64, String.length_append, e1, e2, e3] at h2
  omega

/-- A key step never touches the recipient key once it is non-empty. -/
theorem keyStep_rec (env : Env) (ds : DiscoSt) (e : String × KeyDetails)
    (h : ¬ ds.cfg.gpg_recipient = "") :
    (dsOf (keyStep env ds e)).cfg.gpg_recipient = ds.cfg.gpg_recipient := by
  unfold keyStep
  by_cases hr : isRevoked env.today e.2
  · simp [hr, dsOf]
  · simp only [hr, Bool.false_eq_true, if_false]
    cases hu : uidLoop e.2.uids ds.cfg with
    | ok cfg2 =>
      obtain ⟨n1, h1⟩ := uidLoop_spec e.2.uids ds.cfg
      rw [hu] at h1
      simp only [cfgOfU] at h1
      subst h1
      cases hB : (ds.cfg.crypto_policy == "none") <;> simp [dsOf, h, hB]
    | error err =>
      obtain ⟨m, cfg2⟩ := err
      obtain ⟨n1, h1⟩ := uidLoop_spec e.2.uids ds.cfg
      rw [hu] at h1
      simp only [cfgOfU] at h1
      subst h1
      simp [dsOf]

/-- The key loop never touches the recipient key once it is
non-empty. -/
theorem keyLoop_rec (env : Env) (ks : List (String × KeyDetails)) (ds : DiscoSt)
    (h : ¬ ds.cfg.gpg_recipient = "") :
    (dsOf (keyLoop env ks ds)).cfg.gpg_recipient = ds.cfg.gpg_recipient := by
  induction ks generalizing ds with
  | nil => simp [keyLoop, dsOf]
  | cons e rest ih =>
    unfold keyLoop
    cases hk : keyStep env ds e with
    | ok ds2 =>
      have h1 := keyStep_rec env ds e h
      rw [hk] at h1
      simp only [dsOf] at h1
      rw [ih ds2 (by rw [h1]; exact h)]
      exact h1
    | error err =>
      have h1 := keyStep_rec env ds e h
      rw [hk] at h1
      exact h1

/-- The discovery stage never touches the recipient key once it is
non-empty. -/
theorem discoveryStage_rec (env : Env) (st : St)
    (h : ¬ st.cfg.gpg_recipient = "") :
    (stOf (discoveryStage env st)).cfg.gpg_recipient = st.cfg.gpg_recipient := by
  unfold discoveryStage
  by_cases hg : env.gnupgAvailable
  · simp only [hg, if_true]
    cases hk : keyLoop env env.keys ⟨st.cfg, st.events, []⟩ with
    | ok ds =>
      have h1 := keyLoop_rec env env.keys ⟨st.cfg, st.events, []⟩ (by simpa using h)
      rw [hk] at h1
      simp only [dsOf] at h1
      simpa [stOf] using h1
    | error err =>
      obtain ⟨m, ds⟩ := err
      have h1 := keyLoop_rec env env.keys ⟨st.cfg, st.events, []⟩ (by simpa using h)
      rw [hk] at h1
      simp only [dsOf] at h1
      simpa [stOf] using h1
  · simp [hg, stOf]

/-- A full run of the command preserves a non-empty obfuscation salt and
the encrypted-index flag. -/
theorem run_keeps_salt (env : Env) (cfg : Config)
    (h : ¬ cfg.obfuscate_index = "") :
    (run env cfg).cfg.obfuscate_index = cfg.obfuscate_index ∧
    (run env cfg).cfg.index_encrypted = cfg.index_encrypted := by
  unfold run
  by_cases hl : cfg.lockdown = true
  · rw [if_pos hl]
    exact ⟨rfl, rfl⟩
  · rw [if_neg hl]
    obtain ⟨-, -, -, -, -, -, -, -, t9, t10⟩ := tagStage_keeps env ⟨cfg, []⟩
    cases htag : tagStage env ⟨cfg, []⟩ with
    | error e =>
      obtain ⟨m, st⟩ := e
      rw [htag] at t9 t10
      simp only [stOf] at t9 t10
      simpa using ⟨t9, t10⟩
    | ok st1 =>
      rw [htag] at t9 t10
      simp only [stOf] at t9 t10
      simp only []
      obtain ⟨-, -, -, -, -, -, -, -, p9, p10⟩ := pluginStage_keeps env st1
      set st2 := pluginStage env st1 with hst2
      set st3 : St := ⟨st2.cfg, st2.events ++ [.configSave, .configLoad]⟩ with hst3
      obtain ⟨-, -, -, -, -, -, -, v8, v9⟩ := vcardStage_keeps env st3
      set st4 := vcardStage env st3 with hst4
      obtain ⟨-, -, -, -, -, -, -, -, a9, a10⟩ := autotagStage_keeps st4
      set st5 := autotagStage st4 with hst5
      obtain ⟨-, -, -, -, -, -, d7, d8⟩ := discoveryStage_keeps env st5
      have hsalt5 : ¬ (stOf (discoveryStage env st5)).cfg.obfuscate_index = "" := by
        rw [d7, a9, v8]
        simpa [hst3, p9, t9] using h
      cases hdisc : discoveryStage env st5 with
      | error e =>
        obtain ⟨m, st⟩ := e
        rw [hdisc] at d7 d8 hsalt5
        simp only [stOf] at d7 d8
        simp only []
        constructor
        · rw [d7, a9, v8]; simpa [hst3, t9] using p9
        · rw [d8, a10, v9]; simpa [hst3, t10] using p10
      | ok st6 =>
        rw [hdisc] at d7 d8 hsalt5
        simp only [stOf] at d7 d8 hsalt5
        simp only []
        rw [obfuscationStage_skip env st6 hsalt5]
        constructor
        · rw [d7, a9, v8]; simpa [hst3, t9] using p9
        · rw [d8, a10, v9]; simpa [hst3, t10] using p10

/-- A full run of the command preserves a non-empty recipient key. -/
theorem run_keeps_rec (env : Env) (cfg : Config)
    (h : ¬ cfg.gpg_recipient = "") :
    (run env cfg).cfg.gpg_recipient = cfg.gpg_recipient := by
  unfold run
  by_cases hl : cfg.lockdown = true
  · rw [if_pos hl]
  · rw [if_neg hl]
    obtain ⟨-, -, -, -, -, -, t7, -, -, -⟩ := tagStage_keeps env ⟨cfg, []⟩
    obtain ⟨⟩ := Unit.unit
    cases htag : tagStage env ⟨cfg, []⟩ with
    | error e =>
      obtain ⟨m, st⟩ := e
      rw [htag] at t7
      simp only [stOf] at t7
      simpa using t7
    | ok st1 =>
      rw [htag] at t7
      simp only [stOf] at t7
      simp only []
      obtain ⟨-, -, -, -, -, -, p7, -, -, -⟩ := pluginStage_keeps env st1
      set st2 := pluginStage env st1 with hst2
      set st3 : St := ⟨st2.cfg, st2.events ++ [.configSave, .configLoad]⟩ with hst3
      obtain ⟨-, -, -, -, -, v6, -, -, -⟩ := vcardStage_keeps env st3
      set st4 := vcardStage env st3 with hst4
      obtain ⟨-, -, -, -, -, -, a7, -, -, -⟩ := autotagStage_keeps st4
      set st5 := autotagStage st4 with hst5
      have hrec5 : ¬ st5.cfg.gpg_recipient = "" := by
        rw [a7, v6]
        simpa [hst3, p7, t7] using h
      have hd := discoveryStage_rec env st5 hrec5
      cases hdisc : discoveryStage env st5 with
      | error e =>
        obtain ⟨m, st⟩ := e
        rw [hdisc] at hd
        simp only [stOf] at hd
        simp only []
        rw [hd, a7, v6]
        simpa [hst3, t7] using p7
      | ok st6 =>
        rw [hdisc] at hd
        simp only [stOf] at hd
        simp only []
        obtain ⟨-, -, -, -, -, -, -, o8, -⟩ := obfuscationStage_keeps env st6
        rw [o8, hd, a7, v6]
        simpa [hst3, t7] using p7

/-- Fixture: a fresh configuration before any setup run. -/
def freshConfig : Config :=
  ⟨false, [], [], [], [], [], [], "", "none", "", false⟩

/-- Fixture: a plain environment with no keyring, no spambayes, no
keyring home directory and no built index. -/
def plainEnv : Env :=
  ⟨"2026-10-12", false, false, "/home/user/.gnupg", false, [], false,
   "entropy-block", "1760227200.0", []⟩

/-- C5: if the lockdown flag is set when the Setup command runs, the
command returns an error result and performs no mutation at all: the
config is returned unchanged and no event is emitted. -/
theorem lockdown_guard (env : Env) (cfg : Config) (h : cfg.lockdown = true) :
    run env cfg = ⟨.error "In lockdown, doing nothing.", cfg, []⟩ := by
  unfold run
  rw [if_pos h]

/-- Witness for the lockdown guard at a concrete locked-down config. -/
theorem lockdown_guard_witness :
    run plainEnv { freshConfig with lockdown := true } =
      ⟨.error "In lockdown, doing nothing.",
       { freshConfig with lockdown := true }, []⟩ :=
  lockdown_guard plainEnv { freshConfig with lockdown := true } rfl

/-- A revoked key makes one key step a perfect no-op. -/
theorem keyStep_revoked (env : Env) (ds : DiscoSt) (k : String) (d : KeyDetails)
    (h : isRevoked env.today d = true) :
    keyStep env ds (k, d) = .ok ds := by
  unfold keyStep
  rw [if_pos h]

/-- The key loop distributes over list append. -/
theorem keyLoop_append (env : Env) (l1 l2 : List (String × KeyDetails)) (ds : DiscoSt) :
    keyLoop env (l1 ++ l2) ds =
      match keyLoop env l1 ds with
      | .ok ds2 => keyLoop env l2 ds2
      | .error e => .error e := by
  induction l1 generalizing ds with
  | nil => simp [keyLoop]
  | cons e rest ih =>
    simp only [List.cons_append, keyLoop]
    cases keyStep env ds e <;> simp [ih]

/-- C4: an identity whose revocation date is on or before today (string
comparison on ISO dates) is skipped entirely: processing it changes
nothing at all (no profiles, no recipient key, no policy upgrade, no
event, not even the accepted list), and splicing it into any position of
the keyring listing does not change what the key loop computes. -/
theorem revoked_key_skipped (env : Env) (ds : DiscoSt) (k : String)
    (d : KeyDetails) (r : String)
    (hr : d.revocationDate = some r) (hle : strLe r env.today = true) :
    keyStep env ds (k, d) = .ok ds ∧
    ∀ pre post, keyLoop env (pre ++ (k, d) :: post) ds = keyLoop env (pre ++ post) ds := by
  have hrev : isRevoked env.today d = true := by
    simp [isRevoked, hr, hle]
  refine ⟨keyStep_revoked env ds k d hrev, ?_⟩
  intro pre post
  rw [keyLoop_append, keyLoop_append]
  cases keyLoop env pre ds with
  | ok ds2 =>
    simp only []
    rw [keyLoop, keyStep_revoked env ds2 k d hrev]
  | error e => rfl

/-- Fixture: a revoked secret key carrying an encryption capability and
one fully-specified uid. -/
def revokedKey : KeyDetails :=
  ⟨some "2000-01-01", true, [⟨some "alice@example.com", some "Alice"⟩]⟩

/-- Fixture: a live (non-revoked) secret key able to encrypt. -/
def liveKey : KeyDetails :=
  ⟨none, true, [⟨some "bob@example.com", some "Bob"⟩]⟩

/-- Witness for revocation filtering at a concrete revoked key. -/
theorem revoked_key_skipped_witness :
    keyStep plainEnv ⟨freshConfig, [], []⟩ ("keyA", revokedKey) = .ok ⟨freshConfig, [], []⟩ ∧
    keyLoop plainEnv ([("keyB", liveKey)] ++ ("keyA", revokedKey) :: []) ⟨freshConfig, [], []⟩ =
      keyLoop plainEnv ([("keyB", liveKey)] ++ []) ⟨freshConfig, [], []⟩ :=
  ⟨(revoked_key_skipped plainEnv ⟨freshConfig, [], []⟩ "keyA" revokedKey
      "2000-01-01" rfl (by decide)).1,
   (revoked_key_skipped plainEnv ⟨freshConfig, [], []⟩ "keyA" revokedKey
      "2000-01-01" rfl (by decide)).2 [("keyB", liveKey)] []⟩

/-- C2: the obfuscation assignment executes exactly when the recipient
key is non-empty, the index is not built and the salt is empty; it then
stores a non-empty salt and sets the encrypted-index flag; and once the
salt is non-empty no later run of the command changes the salt or the
flag again. -/
theorem obfuscation_once (env : Env) (st : St) (cfg : Config) :
    (¬ st.cfg.gpg_recipient = "" → env.indexBuilt = false →
     st.cfg.obfuscate_index = "" →
       ¬ (obfuscationStage env st).cfg.obfuscate_index = "" ∧
       (obfuscationStage env st).cfg.index_encrypted = true) ∧
    (st.cfg.gpg_recipient = "" ∨ env.indexBuilt = true ∨
     ¬ st.cfg.obfuscate_index = "" →
       obfuscationStage env st = st) ∧
    (¬ cfg.obfuscate_index = "" →
       (run env cfg).cfg.obfuscate_index = cfg.obfuscate_index ∧
       (run env cfg).cfg.index_encrypted = cfg.index_encrypted) := by
  refine ⟨?_, ?_, fun h => run_keeps_salt env cfg h⟩
  · intro h1 h2 h3
    unfold obfuscationStage
    rw [if_pos]
    · exact ⟨sha512b64_ne_empty _ _ _, rfl⟩
    · simp [h1, h2, h3]
  · intro hor
    unfold obfuscationStage
    rw [if_neg]
    rcases hor with h | h | h <;> simp [h]

/-- Witness for the obfuscation decision: it triggers at a concrete
ready state, and a concrete non-empty salt survives a full run. -/
theorem obfuscation_once_witness :
    (¬ (obfuscationStage plainEnv
          ⟨{ freshConfig with gpg_recipient := "KEYA" }, []⟩).cfg.obfuscate_index = "" ∧
     (obfuscationStage plainEnv
          ⟨{ freshConfig with gpg_recipient := "KEYA" }, []⟩).cfg.index_encrypted = true) ∧
    ((run plainEnv { freshConfig with obfuscate_index := "oldsalt" }).cfg.obfuscate_index =
       ({ freshConfig with obfuscate_index := "oldsalt" } : Config).obfuscate_index ∧
     (run plainEnv { freshConfig with obfuscate_index := "oldsalt" }).cfg.index_encrypted =
       ({ freshConfig with obfuscate_index := "oldsalt" } : Config).index_encrypted) :=
  ⟨(obfuscation_once plainEnv ⟨{ freshConfig with gpg_recipient := "KEYA" }, []⟩
      freshConfig).1 (by decide) rfl rfl,
   (obfuscation_once plainEnv ⟨{ freshConfig with gpg_recipient := "KEYA" }, []⟩
      { freshConfig with obfuscate_index := "oldsalt" }).2.2 (by decide)⟩

/-- A non-revoked, encryption-capable key processed while the recipient
is still empty sets the recipient to its own key id. -/
theorem keyStep_sets_rec (env : Env) (ds : DiscoSt) (k : String) (d : KeyDetails)
    (ds2 : DiscoSt) (hrev : isRevoked env.today d = false) (hcap : d.capEncrypt = true)
    (hrec : ds.cfg.gpg_recipient = "")
    (hok : keyStep env ds (k, d) = .ok ds2) :
    ds2.cfg.gpg_recipient = k := by
  unfold keyStep at hok
  rw [if_neg (by simp [hrev])] at hok
  cases hu : uidLoop d.uids ds.cfg with
  | error err =>
    obtain ⟨m, cfg2⟩ := err
    simp [hu] at hok
  | ok cfg2 =>
    obtain ⟨n1, h1⟩ := uidLoop_spec d.uids ds.cfg
    rw [hu] at h1
    simp only [cfgOfU] at h1
    have hrec2 : cfg2.gpg_recipient = "" := by rw [h1]; simpa using hrec
    simp only [hu, hrec2, hcap] at hok
    simp only [beq_self_eq_true, Bool.and_self, if_true] at hok
    injection hok with hok2
    subst hok2
    by_cases hB : (cfg2.crypto_policy == "none") = true <;> simp [hB]

/-- C3: with two capable, non-revoked identities listed in order, the
first one becomes the recipient key during discovery; and on every run
where the recipient key is already non-empty at the start, the command
leaves it unchanged. -/
theorem first_recipient_wins (env env2 : Env) (cfg cfg2 : Config) (ev : List Event)
    (kA kB : String) (dA dB : KeyDetails) (st2 : St) (hkA : ¬ kA = "") :
    (env.keys = [(kA, dA), (kB, dB)] → cfg.gpg_recipient = "" →
     isRevoked env.today dA = false → dA.capEncrypt = true →
     env.gnupgAvailable = true →
     discoveryStage env ⟨cfg, ev⟩ = .ok st2 →
     st2.cfg.gpg_recipient = kA) ∧
    (¬ cfg2.gpg_recipient = "" →
     (run env2 cfg2).cfg.gpg_recipient = cfg2.gpg_recipient) := by
  refine ⟨?_, fun h => run_keeps_rec env2 cfg2 h⟩
  intro hkeys hrec hrevA hcapA hgnupg hok
  unfold discoveryStage at hok
  simp only [hgnupg, if_true, hkeys] at hok
  cases hk1 : keyStep env ⟨cfg, ev, []⟩ (kA, dA) with
  | error e => simp [keyLoop, hk1] at hok
  | ok ds1 =>
    have hds1 : ds1.cfg.gpg_recipient = kA :=
      keyStep_sets_rec env ⟨cfg, ev, []⟩ kA dA ds1 hrevA hcapA (by simpa using hrec) hk1
    cases hk2 : keyStep env ds1 (kB, dB) with
    | error e => simp [keyLoop, hk1, hk2] at hok
    | ok ds2 =>
      have h2 := keyStep_rec env ds1 (kB, dB) (by rw [hds1]; exact hkA)
      rw [hk2] at h2
      simp only [dsOf] at h2
      simp only [keyLoop, hk1, hk2] at hok
      injection hok with hok2
      subst hok2
      show ds2.cfg.gpg_recipient = kA
      rw [h2, hds1]

/-- Fixture: a second live key with its own uid. -/
def liveKeyB : KeyDetails :=
  ⟨none, true, [⟨some "carol@example.com", some "Carol"⟩]⟩

/-- Fixture: an environment listing two live keys in order. -/
def twoKeyEnv : Env :=
  { plainEnv with gnupgAvailable := true,
                  keys := [("KEYA", liveKey), ("KEYB", liveKeyB)] }

/-- Witness for first-recipient-wins at a two-key keyring, and for
recipient stability over a full run. -/
theorem first_recipient_wins_witness :
    (stOf (discoveryStage twoKeyEnv ⟨freshConfig, []⟩)).cfg.gpg_recipient = "KEYA" ∧
    (run plainEnv { freshConfig with gpg_recipient := "KEYX" }).cfg.gpg_recipient =
      ({ freshConfig with gpg_recipient := "KEYX" } : Config).gpg_recipient :=
  ⟨(first_recipient_wins twoKeyEnv plainEnv freshConfig
      { freshConfig with gpg_recipient := "KEYX" } [] "KEYA" "KEYB" liveKey liveKeyB
      (stOf (discoveryStage twoKeyEnv ⟨freshConfig, []⟩)) (by decide)).1
      rfl rfl rfl rfl rfl rfl,
   (first_recipient_wins twoKeyEnv plainEnv freshConfig
      { freshConfig with gpg_recipient := "KEYX" } [] "KEYA" "KEYB" liveKey liveKeyB
      (stOf (discoveryStage twoKeyEnv ⟨freshConfig, []⟩)) (by decide)).2 (by decide)⟩

/-- C10: the profile-creation branch reads the name field only after
checking the email: one uid step raises exactly when the uid has a
non-empty, not-yet-registered email and no name field, and such a
failure aborts the uid loop rather than being skipped. -/
theorem uid_missing_name (cfg : Config) (u : Uid) (rest : List Uid) :
    ((∃ m, uidStep cfg u = .error m) ↔
      (∃ e, u.email = some e ∧ ¬ e = "" ∧
        (profileEmails cfg.profiles).contains e = false ∧ u.name = none)) ∧
    (∀ m, uidStep cfg u = .error m → uidLoop (u :: rest) cfg = .error (m, cfg)) := by
  constructor
  · constructor
    · rintro ⟨m, hm⟩
      obtain ⟨ue, un⟩ := u
      unfold uidStep at hm
      cases ue with
      | none => simp at hm
      | some e =>
        by_cases h1 : e = ""
        · simp [h1] at hm
        · by_cases h2 : e ∈ profileEmails cfg.profiles
          · simp [h1, h2] at hm
          · cases un with
            | none => exact ⟨e, rfl, h1, by simpa [List.contains] using h2, rfl⟩
            | some n => simp [h1, h2] at hm
    · rintro ⟨e, he, h1, h2, hn⟩
      have h2m : e ∉ profileEmails cfg.profiles := by
        intro hmem
        rw [List.contains] at h2
        rw [List.elem_iff.2 hmem] at h2
        cases h2
      refine ⟨"KeyError: name", ?_⟩
      unfold uidStep
      simp [he, hn, h1, h2m]
  · intro m hm
    unfold uidLoop
    rw [hm]

/-- Witness for the missing-name failure at a concrete uid. -/
theorem uid_missing_name_witness :
    uidLoop [⟨some "dave@example.com", none⟩] freshConfig =
      .error ("KeyError: name", freshConfig) :=
  (uid_missing_name freshConfig ⟨some "dave@example.com", none⟩ []).2
    "KeyError: name" rfl

/-- One uid step preserves distinctness of the registered emails. -/
theorem uidStep_nodup (cfg : Config) (u : Uid) (cfg2 : Config)
    (hok : uidStep cfg u = .ok cfg2)
    (h : (profileEmails cfg.profiles).Nodup) :
    (profileEmails cfg2.profiles).Nodup := by
  obtain ⟨ue, un⟩ := u
  unfold uidStep at hok
  cases ue with
  | none =>
    simp at hok
    subst hok
    exact h
  | some e =>
    by_cases h1 : e = ""
    · simp [h1] at hok
      subst hok
      exact h
    · by_cases h2 : e ∈ profileEmails cfg.profiles
      · simp [h1, h2] at hok
        subst hok
        exact h
      · cases un with
        | none => simp [h1, h2] at hok
        | some n =>
          simp [h1, h2] at hok
          subst hok
          simp [profileEmails, List.nodup_append]
          refine ⟨by simpa [profileEmails] using h, ?_⟩
          intro x hx hxe
          exact h2 (hxe ▸ List.mem_map_of_mem Profile.email hx)

/-- The uid loop preserves distinctness of the registered emails, also
when it raises. -/
theorem uidLoop_nodup (us : List Uid) (cfg : Config)
    (h : (profileEmails cfg.profiles).Nodup) :
    (profileEmails (cfgOfU (uidLoop us cfg)).profiles).Nodup := by
  induction us generalizing cfg with
  | nil => simpa [uidLoop, cfgOfU] using h
  | cons u rest ih =>
    unfold uidLoop
    cases hu : uidStep cfg u with
    | ok cfg2 => exact ih cfg2 (uidStep_nodup cfg u cfg2 hu h)
    | error m => simpa [cfgOfU] using h

/-- One key step preserves distinctness of the registered emails. -/
theorem keyStep_nodup (env : Env) (ds : DiscoSt) (e : String × KeyDetails)
    (h : (profileEmails ds.cfg.profiles).Nodup) :
    (profileEmails (dsOf (keyStep env ds e)).cfg.profiles).Nodup := by
  unfold keyStep
  by_cases hr : isRevoked env.today e.2
  · simpa [hr, dsOf] using h
  · simp only [hr, Bool.false_eq_true, if_false]
    have hu := uidLoop_nodup e.2.uids ds.cfg h
    cases hul : uidLoop e.2.uids ds.cfg with
    | ok cfg2 =>
      rw [hul] at hu
      simp only [cfgOfU] at hu
      by_cases hA : cfg2.gpg_recipient = "" ∧ e.2.capEncrypt = true <;>
        by_cases hB : cfg2.crypto_policy = "none" <;>
        simp [dsOf, hA, hB, hu]
    | error err =>
      obtain ⟨m, cfg2⟩ := err
      rw [hul] at hu
      simpa [cfgOfU, dsOf] using hu

/-- The key loop preserves distinctness of the registered emails. -/
theorem keyLoop_nodup (env : Env) (ks : List (String × KeyDetails)) (ds : DiscoSt)
    (h : (profileEmails ds.cfg.profiles).Nodup) :
    (profileEmails (dsOf (keyLoop env ks ds)).cfg.profiles).Nodup := by
  induction ks generalizing ds with
  | nil => simpa [keyLoop, dsOf] using h
  | cons e rest ih =>
    unfold keyLoop
    have hs := keyStep_nodup env ds e h
    cases hk : keyStep env ds e with
    | ok ds2 =>
      rw [hk] at hs
      simp only [dsOf] at hs
      exact ih ds2 hs
    | error err =>
      rw [hk] at hs
      exact hs

/-- C7: discovery only ever appends profiles (it never mutates or
removes an existing one), and it preserves the invariant that the
profile list holds at most one profile per email value. -/
theorem profile_dedup (env : Env) (st : St)
    (h : (profileEmails st.cfg.profiles).Nodup) :
    ∃ new, (stOf (discoveryStage env st)).cfg.profiles = st.cfg.profiles ++ new ∧
      (profileEmails (stOf (discoveryStage env st)).cfg.profiles).Nodup := by
  obtain ⟨new, hs⟩ := discoveryStage_spec env st
  refine ⟨new, by simpa using congrArg Config.profiles hs, ?_⟩
  unfold discoveryStage
  by_cases hg : env.gnupgAvailable
  · simp only [hg, if_true]
    have hn := keyLoop_nodup env env.keys ⟨st.cfg, st.events, []⟩ (by simpa using h)
    cases hk : keyLoop env env.keys ⟨st.cfg, st.events, []⟩ with
    | ok ds =>
      rw [hk] at hn
      simpa [stOf, dsOf] using hn
    | error err =>
      obtain ⟨m, ds⟩ := err
      rw [hk] at hn
      simpa [stOf, dsOf] using hn
  · simpa [hg, stOf] using h

/-- Fixture: a config already holding a profile for Alice. -/
def aliceConfig : Config :=
  { freshConfig with profiles := [⟨"alice@example.com", "Alice Prime"⟩] }

/-- Fixture: an environment whose keyring lists one live key whose first
uid repeats the already-registered Alice address. -/
def aliceEnv : Env :=
  { plainEnv with gnupgAvailable := true,
                  keys := [("KEYA",
                    ⟨none, true, [⟨some "alice@example.com", some "Alice"⟩,
                                  ⟨some "bob@example.com", some "Bob"⟩]⟩)] }

/-- Witness for profile de-duplication at a concrete keyring whose uid
repeats an already-registered email. -/
theorem profile_dedup_witness :
    ∃ new, (stOf (discoveryStage aliceEnv ⟨aliceConfig, []⟩)).cfg.profiles =
        aliceConfig.profiles ++ new ∧
      (profileEmails (stOf (discoveryStage aliceEnv ⟨aliceConfig, []⟩)).cfg.profiles).Nodup :=
  profile_dedup aliceEnv ⟨aliceConfig, []⟩ (by decide)

/-- The tag-reconciliation loop distributes over list append. -/
theorem tagLoop_append (env : Env) (l1 l2 : List (String × Attrs)) (ts : TagSt) :
    tagLoop env (l1 ++ l2) ts =
      match tagLoop env l1 ts with
      | .ok ts2 => tagLoop env l2 ts2
      | .error e => .error e := by
  induction l1 generalizing ts with
  | nil => simp [tagLoop]
  | cons e rest ih =>
    simp only [List.cons_append, tagLoop]
    cases tagStep env ts e <;> simp [ih]

/-- Fixture: an environment in which creating the New tag raises. -/
def failEnv : Env := { plainEnv with addTagFails := ["New"] }

/-- Counterexample to the claim that a tag-creation failure does not
block the remaining tags: with the creation of the New tag failing on a
fresh config, the whole command aborts with an error and the very next
canonical tag, Inbox, is never created. -/
theorem tag_failure_aborts_counterexample :
    (run failEnv freshConfig).outcome = .error "AddTag failed: New" ∧
    getTagId (run failEnv freshConfig).cfg.tags "Inbox" = false := by
  decide

/-- C8 amended: a creation failure for one canonical tag aborts the
reconciliation loop at that entry: the exception propagates with the
partial state reached so far, the remaining entries are never processed,
and no failure is collected. -/
theorem tag_failure_aborts (env : Env) (L1 L2 : List (String × Attrs))
    (t : String) (a : Attrs) (ts ts1 : TagSt)
    (h1 : tagLoop env L1 ts = .ok ts1)
    (h2 : getTagId ts1.tags t = false)
    (h3 : env.addTagFails.contains t = true) :
    tagLoop env (L1 ++ (t, a) :: L2) ts = .error ("AddTag failed: " ++ t, ts1) := by
  rw [tagLoop_append, h1]
  simp only []
  rw [tagLoop]
  unfold tagStep
  rw [if_neg (by simp [h2]), if_pos h3]

/-- Witness for the aborting tag-creation failure at a concrete loop. -/
theorem tag_failure_aborts_witness :
    tagLoop failEnv ([] ++ ("New", []) :: [("Inbox", [])]) ⟨[], []⟩ =
      .error ("AddTag failed: " ++ "New", ⟨[], []⟩) :=
  tag_failure_aborts failEnv [] [("Inbox", [])] "New" [] ⟨[], []⟩ ⟨[], []⟩
    rfl rfl (by decide)

/-- Persistence operations among the events of a run. -/
def isPersistEvent : Event → Bool
  | .configSave => true
  | .configLoad => true
  | _ => false

/-- The tag stage emits no persistence event. -/
theorem tagStage_persist (env : Env) (st : St) :
    (stOf (tagStage env st)).events.filter isPersistEvent =
      st.events.filter isPersistEvent := by
  unfold tagStage
  cases h : tagLoop env canonicalTable ⟨st.cfg.tags, []⟩ with
  | ok ts =>
    by_cases hc : "New" ∈ ts.created
    · simp [stOf, hc, isPersistEvent, List.filter_append]
    · simp [stOf, hc]
  | error e => obtain ⟨m, ts⟩ := e; simp [stOf]

/-- The plugin stage emits no persistence event. -/
theorem pluginStage_persist (env : Env) (st : St) :
    (pluginStage env st).events.filter isPersistEvent =
      st.events.filter isPersistEvent := by
  unfold pluginStage
  cases h1 : env.spambayesInstalled
  · simp [h1, isPersistEvent]
  · simp only [h1, if_true]
    split <;> simp [isPersistEvent]

/-- The vcard-importer stage emits no persistence event. -/
theorem vcardStage_persist (env : Env) (st : St) :
    (vcardStage env st).events.filter isPersistEvent =
      st.events.filter isPersistEvent := by
  unfold vcardStage
  by_cases h1 : st.cfg.vcardGravatar.isEmpty <;> simp [h1] <;> split <;>
    simp [isPersistEvent]

/-- The autotag stage emits no event at all. -/
theorem autotagStage_events (st : St) :
    (autotagStage st).events = st.events := by
  unfold autotagStage
  split <;> simp

/-- One key step emits no persistence event. -/
theorem keyStep_persist (env : Env) (ds : DiscoSt) (e : String × KeyDetails) :
    (dsOf (keyStep env ds e)).events.filter isPersistEvent =
      ds.events.filter isPersistEvent := by
  unfold keyStep
  by_cases hr : isRevoked env.today e.2
  · simp [hr, dsOf]
  · simp only [hr, Bool.false_eq_true, if_false]
    cases hu : uidLoop e.2.uids ds.cfg with
    | ok cfg2 =>
      by_cases hA : cfg2.gpg_recipient = "" ∧ e.2.capEncrypt = true <;>
        by_cases hB : cfg2.crypto_policy = "none" <;>
        simp [dsOf, hA, hB, isPersistEvent]
    | error err =>
      obtain ⟨m, cfg2⟩ := err
      simp [dsOf]

/-- The key loop emits no persistence event. -/
theorem keyLoop_persist (env : Env) (ks : List (String × KeyDetails)) (ds : DiscoSt) :
    (dsOf (keyLoop env ks ds)).events.filter isPersistEvent =
      ds.events.filter isPersistEvent := by
  induction ks generalizing ds with
  | nil => simp [keyLoop, dsOf]
  | cons e rest ih =>
    unfold keyLoop
    have hs := keyStep_persist env ds e
    cases hk : keyStep env ds e with
    | ok ds2 =>
      rw [hk] at hs
      simp only [dsOf] at hs
      rw [ih ds2, hs]
    | error err =>
      rw [hk] at hs
      exact hs

/-- The discovery stage emits no persistence event. -/
theorem discoveryStage_persist (env : Env) (st : St) :
    (stOf (discoveryStage env st)).events.filter isPersistEvent =
      st.events.filter isPersistEvent := by
  unfold discoveryStage
  by_cases hg : env.gnupgAvailable
  · simp only [hg, if_true]
    have hs := keyLoop_persist env env.keys ⟨st.cfg, st.events, []⟩
    cases hk : keyLoop env env.keys ⟨st.cfg, st.events, []⟩ with
    | ok ds =>
      rw [hk] at hs
      simpa [stOf, dsOf] using hs
    | error err =>
      obtain ⟨m, ds⟩ := err
      rw [hk] at hs
      simpa [stOf, dsOf] using hs
  · simp [hg, stOf, isPersistEvent]

/-- The obfuscation stage emits no persistence event. -/
theorem obfuscationStage_persist (env : Env) (st : St) :
    (obfuscationStage env st).events.filter isPersistEvent =
      st.events.filter isPersistEvent := by
  unfold obfuscationStage
  split <;> simp [isPersistEvent]

/-- Counterexample to the claim that the config is committed at exactly
one point: a successful run on a fresh config saves the configuration
twice. -/
theorem single_persist_counterexample :
    (run plainEnv freshConfig).outcome = .success "Performed initial Mailpile setup" ∧
    (run plainEnv freshConfig).events.count Event.configSave = 2 := by
  decide

/-- C9 amended: every successful run commits the configuration at
exactly two points, a mid-procedure save immediately followed by the
reload, and a final save after all other stages with no reload after
it: the persistence events of the run are save, load, save in that
order. -/
theorem persist_points (env : Env) (cfg : Config) (m : String)
    (cfg2 : Config) (ev : List Event)
    (h : run env cfg = ⟨.success m, cfg2, ev⟩) :
    ev.filter isPersistEvent = [.configSave, .configLoad, .configSave] := by
  unfold run at h
  by_cases hl : cfg.lockdown = true
  · rw [if_pos hl] at h
    cases h
  · rw [if_neg hl] at h
    have ht := tagStage_persist env ⟨cfg, []⟩
    cases htag : tagStage env ⟨cfg, []⟩ with
    | error e =>
      obtain ⟨m2, st⟩ := e
      rw [htag] at h
      cases h
    | ok st1 =>
      rw [htag] at h
      simp only [] at h
      rw [htag] at ht
      simp only [stOf] at ht
      have hp := pluginStage_persist env st1
      set st2 := pluginStage env st1 with hst2
      set st3 : St := ⟨st2.cfg, st2.events ++ [.configSave, .configLoad]⟩ with hst3
      have hv := vcardStage_persist env st3
      set st4 := vcardStage env st3 with hst4
      have ha := autotagStage_events st4
      set st5 := autotagStage st4 with hst5
      have hd := discoveryStage_persist env st5
      cases hdisc : discoveryStage env st5 with
      | error e =>
        obtain ⟨m2, st⟩ := e
        rw [hdisc] at h
        cases h
      | ok st6 =>
        rw [hdisc] at h
        simp only [] at h
        rw [hdisc] at hd
        simp only [stOf] at hd
        have ho := obfuscationStage_persist env st6
        obtain ⟨-, -, hev⟩ := RunResult.mk.injEq _ _ _ _ _ _ ▸ h
        have hev2 : ev = (obfuscationStage env st6).events ++ [Event.configSave] := by
          cases h
          rfl
        rw [hev2, List.filter_append, ho, hd, ha, hv]
        rw [hst3]
        simp only [List.filter_append, hp, ht]
        simp [isPersistEvent]

/-- Witness for the save-load-save persistence trace of a successful
concrete run. -/
theorem persist_points_witness :
    (run plainEnv freshConfig).events.filter isPersistEvent =
      [Event.configSave, Event.configLoad, Event.configSave] :=
  persist_points plainEnv freshConfig "Performed initial Mailpile setup"
    (run plainEnv freshConfig).cfg (run plainEnv freshConfig).events rfl

/-! Algebra of the attribute dicts: setting a key twice is absorbed, so
re-applying a canonical update is the identity. -/

/-- Keys of an attribute dict. -/
def keysOf (d : Attrs) : List String := d.map Prod.fst

/-- The membership test used by `dictSet` agrees with key membership. -/
theorem hasKey_iff (d : Attrs) (k : String) :
    d.any (fun p => p.1 == k) = true ↔ k ∈ keysOf d := by
  simp only [List.any_eq_true, beq_iff_eq, keysOf, List.mem_map]

/-- Overwriting a key in place does not change the key sequence. -/
theorem keysOf_mapSet (d : Attrs) (k : String) (v : AttrVal) :
    keysOf (d.map (fun p => if p.1 == k then (k, v) else p)) = keysOf d := by
  induction d with
  | nil => rfl
  | cons p rest ih =>
    simp only [keysOf, List.map_cons] at ih ⊢
    by_cases hp : (p.1 == k) = true
    · rw [if_pos hp]
      simp only [List.map_cons]
      have h1 : p.1 = k := by simpa using hp
      rw [h1]
      exact congrArg _ ih
    · rw [if_neg hp]
      exact congrArg _ ih

/-- Keys after `dictSet`: unchanged when the key was present, the key
appended otherwise. -/
theorem keysOf_dictSet (d : Attrs) (k : String) (v : AttrVal) :
    keysOf (dictSet d k v) =
      (if k ∈ keysOf d then keysOf d else keysOf d ++ [k]) := by
  by_cases h : k ∈ keysOf d
  · rw [dictSet, if_pos ((hasKey_iff d k).2 h), if_pos h, keysOf_mapSet]
  · rw [dictSet, if_neg (fun hc => h ((hasKey_iff d k).1 hc)), if_neg h]
    simp [keysOf]

/-- Key membership is preserved by `dictSet`. -/
theorem mem_keys_dictSet (d : Attrs) (k : String) (v : AttrVal) (k2 : String)
    (h : k2 ∈ keysOf d) : k2 ∈ keysOf (dictSet d k v) := by
  rw [keysOf_dictSet]
  split
  · exact h
  · exact List.mem_append_left _ h

/-- The set key is a member after `dictSet`. -/
theorem mem_keys_dictSet_self (d : Attrs) (k : String) (v : AttrVal) :
    k ∈ keysOf (dictSet d k v) := by
  rw [keysOf_dictSet]
  split
  · assumption
  · simp

/-- Every entry of the dict carrying this key carries this value. -/
@[reducible] def allK (d : Attrs) (k : String) (v : AttrVal) : Prop :=
  ∀ p ∈ d, p.1 = k → p.2 = v

/-- After setting a key, every entry with that key holds the new
value. -/
theorem allK_dictSet_self (d : Attrs) (k : String) (v : AttrVal) :
    allK (dictSet d k v) k v := by
  unfold dictSet
  split
  · intro p hp hpk
    obtain ⟨q, hq, hfq⟩ := List.mem_map.1 hp
    by_cases hqk : (q.1 == k) = true
    · rw [if_pos hqk] at hfq
      rw [← hfq]
    · rw [if_neg hqk] at hfq
      subst hfq
      exact absurd (by simpa using hpk) (by simpa using hqk)
  · next hany =>
    intro p hp hpk
    rcases List.mem_append.1 hp with hd | hs
    · exact absurd ((hasKey_iff d k).2 (hpk ▸ List.mem_map_of_mem Prod.fst hd)) hany
    · simp only [List.mem_singleton] at hs
      rw [hs]

/-- Setting a different key preserves the all-entries property. -/
theorem allK_dictSet_other (d : Attrs) (k : String) (v : AttrVal)
    (k2 : String) (v2 : AttrVal) (hne : ¬ k2 = k) (h : allK d k v) :
    allK (dictSet d k2 v2) k v := by
  unfold dictSet
  split
  · intro p hp hpk
    obtain ⟨q, hq, hfq⟩ := List.mem_map.1 hp
    by_cases hqk : (q.1 == k2) = true
    · rw [if_pos hqk] at hfq
      rw [← hfq] at hpk
      exact absurd hpk hne
    · rw [if_neg hqk] at hfq
      subst hfq
      exact h q hq hpk
  · intro p hp hpk
    rcases List.mem_append.1 hp with hd | hs
    · exact h p hd hpk
    · simp only [List.mem_singleton] at hs
      subst hs
      exact absurd hpk hne

/-- Overwriting a key with the value it already holds everywhere is the
identity. -/
theorem mapSet_self_of_allK (d : Attrs) (k : String) (v : AttrVal)
    (h : allK d k v) :
    d.map (fun p => if p.1 == k then (k, v) else p) = d := by
  induction d with
  | nil => rfl
  | cons p rest ih =>
    simp only [List.map_cons]
    by_cases hp : (p.1 == k) = true
    · rw [if_pos hp]
      have h1 : p.1 = k := by simpa using hp
      have h2 : p.2 = v := h p (List.mem_cons_self p rest) h1
      have hhead : ((k, v) : String × AttrVal) = p := by rw [← h1, ← h2]
      exact congr (congrArg List.cons hhead)
        (ih (fun q hq hqk => h q (List.mem_cons_of_mem p hq) hqk))
    · rw [if_neg hp]
      exact congrArg _ (ih (fun q hq hqk => h q (List.mem_cons_of_mem p hq) hqk))

/-- Setting a key to the value it already holds everywhere is the
identity, provided the key is present. -/
theorem dictSet_self_of_allK (d : Attrs) (k : String) (v : AttrVal)
    (hmem : k ∈ keysOf d) (h : allK d k v) : dictSet d k v = d := by
  rw [dictSet, if_pos ((hasKey_iff d k).2 hmem)]
  exact mapSet_self_of_allK d k v h

/-- Updating with a dict not containing the key preserves the
all-entries property. -/
theorem allK_dictUpdate (u : Attrs) (d : Attrs) (k : String) (v : AttrVal)
    (hk : ¬ k ∈ keysOf u) (h : allK d k v) : allK (dictUpdate d u) k v := by
  induction u generalizing d with
  | nil => exact h
  | cons p rest ih =>
    simp only [keysOf, List.map_cons, List.mem_cons, not_or] at hk
    exact ih (dictSet d p.1 p.2) (fun hm => hk.2 (by simpa [keysOf] using hm))
      (allK_dictSet_other d k v p.1 p.2 (fun he => hk.1 he.symm) h)

/-- Key membership is preserved by `dictUpdate`. -/
theorem mem_keys_dictUpdate (u : Attrs) (d : Attrs) (k : String)
    (h : k ∈ keysOf d) : k ∈ keysOf (dictUpdate d u) := by
  induction u generalizing d with
  | nil => exact h
  | cons p rest ih => exact ih (dictSet d p.1 p.2) (mem_keys_dictSet d p.1 p.2 k h)

/-- Updating twice with a dict whose keys are distinct is the same as
updating once. -/
theorem dictUpdate_idem (u : Attrs) (hnd : (keysOf u).Nodup) (d : Attrs) :
    dictUpdate (dictUpdate d u) u = dictUpdate d u := by
  induction u generalizing d with
  | nil => rfl
  | cons p rest ih =>
    simp only [keysOf, List.map_cons, List.nodup_cons] at hnd
    obtain ⟨hp, hnd2⟩ := hnd
    show dictUpdate (dictSet (dictUpdate (dictSet d p.1 p.2) rest) p.1 p.2) rest =
      dictUpdate (dictSet d p.1 p.2) rest
    have hall : allK (dictUpdate (dictSet d p.1 p.2) rest) p.1 p.2 :=
      allK_dictUpdate rest (dictSet d p.1 p.2) p.1 p.2 (by simpa [keysOf] using hp)
        (allK_dictSet_self d p.1 p.2)
    have hmem : p.1 ∈ keysOf (dictUpdate (dictSet d p.1 p.2) rest) :=
      mem_keys_dictUpdate rest (dictSet d p.1 p.2) p.1 (mem_keys_dictSet_self d p.1 p.2)
    rw [dictSet_self_of_allK _ p.1 p.2 hmem hall]
    exact ih hnd2 (dictSet d p.1 p.2)

/-! Algebra of the tag store. -/

/-- Updating the first matching tag of a store headed by a matching
tag. -/
theorem updateTag_cons_pos (tg : Tag) (rest : List Tag) (t : String) (a : Attrs)
    (h : (tg.slug == t) = true) :
    updateTag (tg :: rest) t a = ⟨tg.slug, dictUpdate tg.attrs a⟩ :: rest := by
  conv_lhs => rw [updateTag]
  rw [if_pos h]

/-- Updating a store headed by a non-matching tag recurses on the
tail. -/
theorem updateTag_cons_neg (tg : Tag) (rest : List Tag) (t : String) (a : Attrs)
    (h : ¬ (tg.slug == t) = true) :
    updateTag (tg :: rest) t a = tg :: updateTag rest t a := by
  conv_lhs => rw [updateTag]
  rw [if_neg h]

/-- Existence over a cons cell of the tag store. -/
theorem getTagId_cons (tg : Tag) (rest : List Tag) (t : String) :
    getTagId (tg :: rest) t = ((tg.slug == t) || getTagId rest t) := by
  simp [getTagId]

/-- Updating a tag preserves the slugs of the store. -/
theorem slugs_updateTag (tags : List Tag) (t : String) (a : Attrs) :
    (updateTag tags t a).map Tag.slug = tags.map Tag.slug := by
  induction tags with
  | nil => rfl
  | cons tg rest ih =>
    by_cases hs : (tg.slug == t) = true
    · rw [updateTag_cons_pos tg rest t a hs]
      simp
    · rw [updateTag_cons_neg tg rest t a hs]
      simpa using ih

/-- Existence as a predicate on the slug sequence. -/
theorem getTagId_eq_slugs (tags : List Tag) (t : String) :
    getTagId tags t = (tags.map Tag.slug).any (fun s => s == t) := by
  induction tags with
  | nil => rfl
  | cons tg rest ih => simp [getTagId_cons, ih]

/-- Tag existence is untouched by attribute updates. -/
theorem getTagId_updateTag (tags : List Tag) (t2 : String) (a : Attrs) (t : String) :
    getTagId (updateTag tags t2 a) t = getTagId tags t := by
  rw [getTagId_eq_slugs, slugs_updateTag, ← getTagId_eq_slugs]

/-- Tag existence over an appended store. -/
theorem getTagId_append (l1 l2 : List Tag) (t : String) :
    getTagId (l1 ++ l2) t = (getTagId l1 t || getTagId l2 t) := by
  simp [getTagId, List.any_append]

/-- Updating a tag in an appended store touches the left part when the
tag exists there, the right part otherwise. -/
theorem updateTag_append (l1 l2 : List Tag) (t : String) (a : Attrs) :
    updateTag (l1 ++ l2) t a =
      if getTagId l1 t then updateTag l1 t a ++ l2 else l1 ++ updateTag l2 t a := by
  induction l1 with
  | nil => simp [getTagId, updateTag]
  | cons tg rest ih =>
    by_cases hs : (tg.slug == t) = true
    · have h1 := updateTag_cons_pos tg (rest ++ l2) t a hs
      have h2 := updateTag_cons_pos tg rest t a hs
      simp [List.cons_append, h1, h2, getTagId_cons, hs]
    · have h1 := updateTag_cons_neg tg (rest ++ l2) t a hs
      have h2 := updateTag_cons_neg tg rest t a hs
      simp only [List.cons_append, h1, h2, getTagId_cons, hs, Bool.false_or]
      rw [ih]
      by_cases hr : getTagId rest t = true <;> simp [hr]

/-- Re-applying the same canonical update to a tag store is the
identity on the updated store. -/
theorem updateTag_idem (tags : List Tag) (t : String) (a : Attrs)
    (hnd : (keysOf a).Nodup) :
    updateTag (updateTag tags t a) t a = updateTag tags t a := by
  induction tags with
  | nil => rfl
  | cons tg rest ih =>
    by_cases hs : (tg.slug == t) = true
    · rw [updateTag_cons_pos tg rest t a hs,
          updateTag_cons_pos ⟨tg.slug, dictUpdate tg.attrs a⟩ rest t a hs,
          dictUpdate_idem a hnd tg.attrs]
    · rw [updateTag_cons_neg tg rest t a hs, updateTag_cons_neg tg _ t a hs, ih]

/-- A store fixed under one key stays fixed under updates of another
key. -/
theorem updateTag_stable_other (tags : List Tag) (t : String) (a : Attrs)
    (t2 : String) (a2 : Attrs) (hne : ¬ t2 = t)
    (hst : updateTag tags t a = tags) :
    updateTag (updateTag tags t2 a2) t a = updateTag tags t2 a2 := by
  induction tags with
  | nil => rfl
  | cons tg rest ih =>
    by_cases h2 : (tg.slug == t2) = true
    · have hnt : ¬ (tg.slug == t) = true := by
        simp only [beq_iff_eq] at h2 ⊢
        rw [h2]
        exact hne
      rw [updateTag_cons_neg tg rest t a hnt] at hst
      have hrest : updateTag rest t a = rest := by injection hst
      rw [updateTag_cons_pos tg rest t2 a2 h2,
          updateTag_cons_neg ⟨tg.slug, dictUpdate tg.attrs a2⟩ rest t a hnt, hrest]
    · by_cases ht : (tg.slug == t) = true
      · rw [updateTag_cons_pos tg rest t a ht] at hst
        have hattrs : dictUpdate tg.attrs a = tg.attrs := by
          have hh : (⟨tg.slug, dictUpdate tg.attrs a⟩ : Tag) = tg := by
            injection hst
          obtain ⟨s, ats⟩ := tg
          injection hh
        rw [updateTag_cons_neg tg rest t2 a2 h2,
            updateTag_cons_pos tg (updateTag rest t2 a2) t a ht, hattrs]
      · rw [updateTag_cons_neg tg rest t a ht] at hst
        have hrest : updateTag rest t a = rest := by injection hst
        rw [updateTag_cons_neg tg rest t2 a2 h2,
            updateTag_cons_neg tg (updateTag rest t2 a2) t a ht, ih hrest]

/-- A canonical entry realised in the tag store: the tag exists and one
more canonical update is the identity. -/
@[reducible] def tagFixed (t : String) (a : Attrs) (tags : List Tag) : Prop :=
  getTagId tags t = true ∧ updateTag tags t a = tags

/-- Inversion of one successful step of the tag loop. -/
theorem tagLoop_inv (env : Env) (e : String × Attrs) (rest : List (String × Attrs))
    (ts ts2 : TagSt) (h : tagLoop env (e :: rest) ts = .ok ts2) :
    ∃ tsm, tagStep env ts e = .ok tsm ∧ tagLoop env rest tsm = .ok ts2 := by
  rw [tagLoop] at h
  cases hs : tagStep env ts e with
  | ok tsm =>
    simp only [hs] at h
    exact ⟨tsm, rfl, h⟩
  | error err =>
    simp only [hs] at h
    cases h

/-- A successful tag step leaves its own entry realised. -/
theorem tagStep_fixed (env : Env) (ts : TagSt) (e : String × Attrs) (ts2 : TagSt)
    (hnd : (keysOf e.2).Nodup) (h : tagStep env ts e = .ok ts2) :
    tagFixed e.1 e.2 ts2.tags := by
  simp only [tagStep, addTag] at h
  by_cases hg : getTagId ts.tags e.1 = true
  · rw [if_pos hg] at h
    injection h with h2
    subst h2
    exact ⟨by rw [getTagId_updateTag]; exact hg, updateTag_idem _ _ _ hnd⟩
  · rw [if_neg hg] at h
    by_cases hf : env.addTagFails.contains e.1 = true
    · rw [if_pos hf] at h
      cases h
    · rw [if_neg hf] at h
      injection h with h2
      subst h2
      constructor
      · rw [getTagId_updateTag, getTagId_append]
        simp [getTagId]
      · exact updateTag_idem _ _ _ hnd

/-- A tag step for a different key keeps an entry realised. -/
theorem tagStep_keeps_fixed (env : Env) (ts : TagSt) (t : String) (a : Attrs)
    (e2 : String × Attrs) (ts2 : TagSt) (hne : ¬ e2.1 = t)
    (hfix : tagFixed t a ts.tags)
    (h : tagStep env ts e2 = .ok ts2) :
    tagFixed t a ts2.tags := by
  simp only [tagStep, addTag] at h
  by_cases hg : getTagId ts.tags e2.1 = true
  · rw [if_pos hg] at h
    injection h with h2
    subst h2
    exact ⟨by rw [getTagId_updateTag]; exact hfix.1,
           updateTag_stable_other _ _ _ _ _ hne hfix.2⟩
  · rw [if_neg hg] at h
    by_cases hf : env.addTagFails.contains e2.1 = true
    · rw [if_pos hf] at h
      cases h
    · rw [if_neg hf] at h
      injection h with h2
      subst h2
      have hg1 : getTagId (ts.tags ++ [⟨e2.1, []⟩]) t = true := by
        rw [getTagId_append, hfix.1]
        rfl
      have hst : updateTag (ts.tags ++ [⟨e2.1, []⟩]) t a = ts.tags ++ [⟨e2.1, []⟩] := by
        rw [updateTag_append, if_pos hfix.1, hfix.2]
      exact ⟨by rw [getTagId_updateTag]; exact hg1,
             updateTag_stable_other _ _ _ _ _ hne hst⟩

/-- A whole tag loop over other keys keeps an entry realised. -/
theorem tagLoop_keeps_fixed (env : Env) (t : String) (a : Attrs)
    (L : List (String × Attrs)) :
    ∀ ts ts2, (∀ e ∈ L, ¬ e.1 = t) → tagFixed t a ts.tags →
      tagLoop env L ts = .ok ts2 → tagFixed t a ts2.tags := by
  induction L with
  | nil =>
    intro ts ts2 _ hfix h
    simp only [tagLoop] at h
    injection h with h2
    subst h2
    exact hfix
  | cons p rest ih =>
    intro ts ts2 hne hfix h
    obtain ⟨tsm, hs, hl⟩ := tagLoop_inv env p rest ts ts2 h
    exact ih tsm ts2 (fun q hq => hne q (List.mem_cons_of_mem p hq))
      (tagStep_keeps_fixed env ts t a p tsm (hne p (List.mem_cons_self p rest)) hfix hs)
      hl

/-- After a successful tag loop over entries with distinct keys, every
entry of the list is realised in the resulting store. -/
theorem tagLoop_all_fixed (env : Env) (L : List (String × Attrs)) :
    ∀ ts ts2, (L.map Prod.fst).Nodup → (∀ e ∈ L, (keysOf e.2).Nodup) →
      tagLoop env L ts = .ok ts2 →
      ∀ e ∈ L, tagFixed e.1 e.2 ts2.tags := by
  induction L with
  | nil =>
    intro ts ts2 _ _ _ e he
    cases he
  | cons p rest ih =>
    intro ts ts2 hnd hka h e he
    obtain ⟨tsm, hs, hl⟩ := tagLoop_inv env p rest ts ts2 h
    simp only [List.map_cons, List.nodup_cons] at hnd
    rcases List.mem_cons.1 he with he1 | he2
    · subst he1
      exact tagLoop_keeps_fixed env e.1 e.2 rest tsm ts2
        (fun q hq hqe => hnd.1 (hqe ▸ List.mem_map_of_mem Prod.fst hq))
        (tagStep_fixed env ts e tsm (hka e (List.mem_cons_self e rest)) hs) hl
    · exact ih tsm ts2 hnd.2 (fun q hq => hka q (List.mem_cons_of_mem p hq)) hl e he2

/-- A tag step at an already realised entry is the identity. -/
theorem tagStep_id (env : Env) (T : List Tag) (c : List String) (p : String × Attrs)
    (hfix : tagFixed p.1 p.2 T) : tagStep env ⟨T, c⟩ p = .ok ⟨T, c⟩ := by
  simp only [tagStep]
  rw [if_pos hfix.1, hfix.2]

/-- A tag loop over realised entries is the identity on the store and
creates nothing. -/
theorem tagLoop_fixed_id (env : Env) (L : List (String × Attrs)) :
    ∀ T c, (∀ e ∈ L, tagFixed e.1 e.2 T) →
      tagLoop env L ⟨T, c⟩ = .ok ⟨T, c⟩ := by
  induction L with
  | nil =>
    intro T c _
    rfl
  | cons p rest ih =>
    intro T c hfix
    rw [tagLoop, tagStep_id env T c p (hfix p (List.mem_cons_self p rest))]
    exact ih T c (fun q hq => hfix q (List.mem_cons_of_mem p hq))

/-- A successful tag loop starting from a store containing none of the
keys creates exactly the listed tags, in order, with their canonical
attributes. -/
theorem tagLoop_build (env : Env) (L : List (String × Attrs)) :
    ∀ tags c ts2, (∀ ta ∈ L, getTagId tags ta.1 = false) →
      (L.map Prod.fst).Nodup →
      tagLoop env L ⟨tags, c⟩ = .ok ts2 →
      ts2 = ⟨tags ++ L.map (fun ta => ⟨ta.1, dictUpdate [] ta.2⟩),
             c ++ L.map Prod.fst⟩ := by
  induction L with
  | nil =>
    intro tags c ts2 _ _ h
    simp only [tagLoop] at h
    injection h with h2
    subst h2
    simp
  | cons p rest ih =>
    intro tags c ts2 hfresh hnd h
    obtain ⟨tsm, hs, hl⟩ := tagLoop_inv env p rest ⟨tags, c⟩ ts2 h
    have hf : getTagId tags p.1 = false := hfresh p (List.mem_cons_self p rest)
    simp only [tagStep, addTag] at hs
    rw [if_neg (by simp [hf])] at hs
    by_cases hfail : env.addTagFails.contains p.1 = true
    · rw [if_pos hfail] at hs
      cases hs
    · rw [if_neg hfail] at hs
      injection hs with hs2
      subst hs2
      have hupd : updateTag (tags ++ [⟨p.1, []⟩]) p.1 p.2 =
          tags ++ [⟨p.1, dictUpdate [] p.2⟩] := by
        rw [updateTag_append, if_neg (by simp [hf])]
        rw [updateTag_cons_pos ⟨p.1, []⟩ [] p.1 p.2 (by simp)]
      simp only [List.map_cons, List.nodup_cons] at hnd
      have hfresh2 : ∀ ta ∈ rest,
          getTagId (tags ++ [⟨p.1, dictUpdate [] p.2⟩]) ta.1 = false := by
        intro ta hta
        rw [getTagId_append, hfresh ta (List.mem_cons_of_mem p hta)]
        have hne : ¬ p.1 = ta.1 := fun he => hnd.1 (he ▸ List.mem_map_of_mem Prod.fst hta)
        simp [getTagId, hne]
      have hres := ih (tags ++ [⟨p.1, dictUpdate [] p.2⟩]) (c ++ [p.1]) ts2
        hfresh2 hnd.2 (by rw [← hupd]; exact hl)
      rw [hres]
      simp

/-- The tag store built by one run of the taxonomy over a fresh store:
every canonical entry as one tag carrying its canonical attributes. -/
def canonicalTags : List Tag := canonicalTable.map (fun ta => ⟨ta.1, ta.2⟩)

/-- Number of tags in the store carrying a key. -/
def countSlug (tags : List Tag) (t : String) : Nat :=
  (tags.filter (fun tg => tg.slug == t)).length

/-- The canonical taxonomy lists every key exactly once. -/
theorem canonicalTable_keys_nodup : (canonicalTable.map Prod.fst).Nodup := by decide

/-- Every canonical attribute dict lists each attribute once. -/
theorem canonicalTable_attrs_nodup : ∀ e ∈ canonicalTable, (keysOf e.2).Nodup := by
  decide

/-- Building each canonical dict from scratch reproduces it exactly. -/
theorem canonicalTags_build :
    canonicalTable.map (fun ta => Tag.mk ta.1 (dictUpdate [] ta.2)) = canonicalTags := by
  decide

/-- Every canonical entry is realised in the canonical store. -/
theorem canonicalTags_fixed : ∀ e ∈ canonicalTable, tagFixed e.1 e.2 canonicalTags := by
  decide

/-- In the canonical store every canonical key occurs exactly once and
resolves to its canonical attributes. -/
theorem canonicalTags_spec : ∀ ta ∈ canonicalTable,
    countSlug canonicalTags ta.1 = 1 ∧
    List.find? (fun tg => tg.slug == ta.1) canonicalTags = some ⟨ta.1, ta.2⟩ := by
  decide

/-- A successful run reconciles the taxonomy over the initial store and
its final store is the loop result. -/
theorem run_tags (env : Env) (cfg : Config) (m : String) (cfg2 : Config)
    (ev : List Event) (h : run env cfg = ⟨.success m, cfg2, ev⟩) :
    ∃ ts2, tagLoop env canonicalTable ⟨cfg.tags, []⟩ = .ok ts2 ∧ cfg2.tags = ts2.tags := by
  unfold run at h
  by_cases hl : cfg.lockdown = true
  · rw [if_pos hl] at h
    cases h
  · rw [if_neg hl] at h
    cases htag : tagStage env ⟨cfg, []⟩ with
    | error e =>
      obtain ⟨m2, st⟩ := e
      rw [htag] at h
      cases h
    | ok st1 =>
      rw [htag] at h
      simp only [] at h
      simp only [tagStage] at htag
      cases hloop : tagLoop env canonicalTable ⟨cfg.tags, []⟩ with
      | error err =>
        obtain ⟨m3, ts⟩ := err
        simp only [hloop] at htag
        cases htag
      | ok ts =>
        simp only [hloop] at htag
        refine ⟨ts, rfl, ?_⟩
        obtain ⟨-, p2, -, -, -, -, -, -, -, -⟩ := pluginStage_keeps env st1
        set st2 := pluginStage env st1 with hst2
        set st3 : St := ⟨st2.cfg, st2.events ++ [.configSave, .configLoad]⟩ with hst3
        obtain ⟨-, v2, -, -, -, -, -, -, -⟩ := vcardStage_keeps env st3
        set st4 := vcardStage env st3 with hst4
        obtain ⟨-, a2, -, -, -, -, -, -, -, -⟩ := autotagStage_keeps st4
        set st5 := autotagStage st4 with hst5
        obtain ⟨-, d2, -, -, -, -, -, -⟩ := discoveryStage_keeps env st5
        cases hdisc : discoveryStage env st5 with
        | error e =>
          obtain ⟨m2, st⟩ := e
          rw [hdisc] at h
          cases h
        | ok st6 =>
          rw [hdisc] at h
          simp only [] at h
          rw [hdisc] at d2
          simp only [stOf] at d2
          obtain ⟨-, o2, -, -, -, -, -, -, -⟩ := obfuscationStage_keeps env st6
          have hcfg2 : cfg2 = (obfuscationStage env st6).cfg := by
            cases h
            rfl
          rw [hcfg2, o2, d2, a2, v2]
          have hst1 : st1.cfg.tags = ts.tags := by
            injection htag with htag2
            rw [← htag2]
          rw [hst3]
          simpa [hst3] using p2.trans hst1

/-- A successful run from a fresh tag store leaves exactly the
canonical store. -/
theorem run_tags_build (env : Env) (cfg : Config) (m : String) (cfg2 : Config)
    (ev : List Event) (h : run env cfg = ⟨.success m, cfg2, ev⟩)
    (h0 : cfg.tags = []) : cfg2.tags = canonicalTags := by
  obtain ⟨ts2, hloop, htags⟩ := run_tags env cfg m cfg2 ev h
  rw [h0] at hloop
  have hb := tagLoop_build env canonicalTable [] [] ts2
    (fun ta _ => rfl) canonicalTable_keys_nodup hloop
  rw [htags, hb]
  simpa using canonicalTags_build

/-- A successful run from the canonical tag store leaves it
untouched. -/
theorem run_tags_fixed (env : Env) (cfg : Config) (m : String) (cfg2 : Config)
    (ev : List Event) (h : run env cfg = ⟨.success m, cfg2, ev⟩)
    (h0 : cfg.tags = canonicalTags) : cfg2.tags = canonicalTags := by
  obtain ⟨ts2, hloop, htags⟩ := run_tags env cfg m cfg2 ev h
  rw [h0] at hloop
  rw [tagLoop_fixed_id env canonicalTable canonicalTags [] canonicalTags_fixed] at hloop
  injection hloop with h2
  rw [htags, ← h2]

/-- Any number of further successful runs keeps the canonical store. -/
theorem runs_tags_fixed (envs : List Env) :
    ∀ cfg cfgN, runs envs cfg = some cfgN → cfg.tags = canonicalTags →
      cfgN.tags = canonicalTags := by
  induction envs with
  | nil =>
    intro cfg cfgN h h0
    simp only [runs] at h
    injection h with h2
    rw [← h2]
    exact h0
  | cons e rest ih =>
    intro cfg cfgN h h0
    simp only [runs] at h
    cases hr : run e cfg with
    | mk outcome cfg2 ev =>
      rw [hr] at h
      cases outcome with
      | success m =>
        simp only [] at h
        exact ih cfg2 cfgN h (run_tags_fixed e cfg m cfg2 ev hr h0)
      | error m =>
        simp only [] at h
        cases h

/-- C6: starting from a fresh tag store, after any positive number of
successful runs every canonical taxonomy key is carried by exactly one
tag, and that tag holds exactly the canonical attributes. -/
theorem tag_taxonomy (e : Env) (envs : List Env) (cfg cfgN : Config)
    (ta : String × Attrs) (hta : ta ∈ canonicalTable)
    (h0 : cfg.tags = [])
    (h : runs (e :: envs) cfg = some cfgN) :
    countSlug cfgN.tags ta.1 = 1 ∧
    List.find? (fun tg => tg.slug == ta.1) cfgN.tags = some ⟨ta.1, ta.2⟩ := by
  have hN : cfgN.tags = canonicalTags := by
    simp only [runs] at h
    cases hr : run e cfg with
    | mk outcome cfg2 ev =>
      rw [hr] at h
      cases outcome with
      | success m =>
        simp only [] at h
        exact runs_tags_fixed envs cfg2 cfgN h (run_tags_build e cfg m cfg2 ev hr h0)
      | error m =>
        simp only [] at h
        cases h
  rw [hN]
  exact canonicalTags_spec ta hta

/-- Inversion of one successful step of the key loop. -/
theorem keyLoop_inv (env : Env) (e : String × KeyDetails)
    (rest : List (String × KeyDetails)) (ds ds2 : DiscoSt)
    (h : keyLoop env (e :: rest) ds = .ok ds2) :
    ∃ dsm, keyStep env ds e = .ok dsm ∧ keyLoop env rest dsm = .ok ds2 := by
  rw [keyLoop] at h
  cases hs : keyStep env ds e with
  | ok dsm =>
    simp only [hs] at h
    exact ⟨dsm, rfl, h⟩
  | error err =>
    simp only [hs] at h
    cases h

/-- After a successful uid loop, every non-empty email of the processed
uids is registered. -/
theorem uidLoop_emails (us : List Uid) :
    ∀ cfg cfg2, uidLoop us cfg = .ok cfg2 →
      ∀ u ∈ us, ∀ e2, u.email = some e2 → ¬ e2 = "" →
        e2 ∈ profileEmails cfg2.profiles := by
  induction us with
  | nil =>
    intro cfg cfg2 _ u hu
    cases hu
  | cons u0 rest ih =>
    intro cfg cfg2 h u hu e2 he hne
    rw [uidLoop] at h
    cases hs : uidStep cfg u0 with
    | error m =>
      simp only [hs] at h
      cases h
    | ok cfgm =>
      simp only [hs] at h
      rcases List.mem_cons.1 hu with he0 | hu2
      · subst he0
        have hmem : e2 ∈ profileEmails cfgm.profiles := by
          simp only [uidStep, he] at hs
          rw [if_neg (by simp [hne])] at hs
          by_cases hc : e2 ∈ profileEmails cfg.profiles
          · rw [if_pos (by rw [List.contains]; exact List.elem_iff.2 hc)] at hs
            injection hs with hs2
            rw [← hs2]
            exact hc
          · rw [if_neg (fun hcc => hc (by
              rw [List.contains] at hcc
              exact List.elem_iff.1 hcc))] at hs
            cases hn : u.name with
            | none =>
              rw [hn] at hs
              cases hs
            | some n =>
              rw [hn] at hs
              injection hs with hs2
              rw [← hs2]
              simp [profileEmails]
        obtain ⟨new2, h2⟩ := uidLoop_spec rest cfgm
        rw [h] at h2
        simp only [cfgOfU] at h2
        rw [h2]
        simp only [profileEmails, List.map_append, List.mem_append]
        exact Or.inl hmem
      · exact ih cfgm cfg2 h u hu2 e2 he hne

/-- A key step on a non-revoked key registers every non-empty uid
email. -/
theorem keyStep_emails (env : Env) (ds : DiscoSt) (kd : String × KeyDetails)
    (ds2 : DiscoSt) (h : keyStep env ds kd = .ok ds2)
    (hrev : isRevoked env.today kd.2 = false) :
    ∀ u ∈ kd.2.uids, ∀ e2, u.email = some e2 → ¬ e2 = "" →
      e2 ∈ profileEmails ds2.cfg.profiles := by
  intro u hu e2 he hne
  unfold keyStep at h
  rw [if_neg (by simp [hrev])] at h
  cases hul : uidLoop kd.2.uids ds.cfg with
  | error err =>
    obtain ⟨m, cfg2⟩ := err
    simp only [hul] at h
    cases h
  | ok cfg2 =>
    have hmem := uidLoop_emails kd.2.uids ds.cfg cfg2 hul u hu e2 he hne
    simp only [hul] at h
    by_cases hA : (cfg2.gpg_recipient == "" && kd.2.capEncrypt) = true
    · rw [if_pos hA] at h
      by_cases hB : (({ cfg2 with gpg_recipient := kd.1 } : Config).crypto_policy == "none") = true
      · rw [if_pos hB] at h
        injection h with h2
        rw [← h2]
        exact hmem
      · rw [if_neg hB] at h
        injection h with h2
        rw [← h2]
        exact hmem
    · rw [if_neg hA] at h
      by_cases hB : (cfg2.crypto_policy == "none") = true
      · rw [if_pos hB] at h
        injection h with h2
        rw [← h2]
        exact hmem
      · rw [if_neg hB] at h
        injection h with h2
        rw [← h2]
        exact hmem

/-- After a successful key loop, every non-empty uid email of every
non-revoked listed key is registered. -/
theorem keyLoop_emails (env : Env) (ks : List (String × KeyDetails)) :
    ∀ ds ds2, keyLoop env ks ds = .ok ds2 →
      ∀ kd ∈ ks, isRevoked env.today kd.2 = false →
        ∀ u ∈ kd.2.uids, ∀ e2, u.email = some e2 → ¬ e2 = "" →
          e2 ∈ profileEmails ds2.cfg.profiles := by
  induction ks with
  | nil =>
    intro ds ds2 _ kd hkd
    cases hkd
  | cons kd0 rest ih =>
    intro ds ds2 h kd hkd hrev u hu e2 he hne
    obtain ⟨dsm, hs, hl⟩ := keyLoop_inv env kd0 rest ds ds2 h
    rcases List.mem_cons.1 hkd with he0 | hkd2
    · subst he0
      have hmem := keyStep_emails env ds kd dsm hs hrev u hu e2 he hne
      obtain ⟨new2, h2⟩ := keyLoop_spec env rest dsm
      rw [hl] at h2
      simp only [dsOf] at h2
      rw [h2]
      simp only [profileEmails, List.map_append, List.mem_append]
      exact Or.inl hmem
    · exact ih dsm ds2 hl kd hkd2 hrev u hu e2 he hne

/-- When a key step leaves the recipient key empty, it was empty before
and the key could not have claimed it. -/
theorem keyStep_rec_empty (env : Env) (ds : DiscoSt) (kd : String × KeyDetails)
    (ds2 : DiscoSt) (h : keyStep env ds kd = .ok ds2)
    (hrec : ds2.cfg.gpg_recipient = "") :
    ds.cfg.gpg_recipient = "" ∧
    (isRevoked env.today kd.2 = false → kd.2.capEncrypt = false ∨ kd.1 = "") := by
  by_cases hr : isRevoked env.today kd.2 = true
  · unfold keyStep at h
    rw [if_pos hr] at h
    injection h with h2
    subst h2
    exact ⟨hrec, fun hf => absurd hr (by simp [hf])⟩
  · unfold keyStep at h
    rw [if_neg hr] at h
    cases hul : uidLoop kd.2.uids ds.cfg with
    | error err =>
      obtain ⟨m, cfg2⟩ := err
      simp only [hul] at h
      cases h
    | ok cfg2 =>
      obtain ⟨n1, h1⟩ := uidLoop_spec kd.2.uids ds.cfg
      rw [hul] at h1
      simp only [cfgOfU] at h1
      have hrec1 : cfg2.gpg_recipient = ds.cfg.gpg_recipient := by rw [h1]
      simp only [hul] at h
      by_cases hA : (cfg2.gpg_recipient == "" && kd.2.capEncrypt) = true
      · rw [if_pos hA] at h
        have hkd1 : ds2.cfg.gpg_recipient = kd.1 := by
          by_cases hB : (({ cfg2 with gpg_recipient := kd.1 } : Config).crypto_policy == "none") = true
          · rw [if_pos hB] at h
            injection h with h2
            rw [← h2]
          · rw [if_neg hB] at h
            injection h with h2
            rw [← h2]
        have hempty : kd.1 = "" := by rw [← hkd1, hrec]
        refine ⟨?_, fun _ => Or.inr hempty⟩
        have h3 : (cfg2.gpg_recipient == "") = true := (Bool.and_eq_true _ _ ▸ hA).1
        rw [← hrec1]
        simpa using h3
      · have hrecds : ds.cfg.gpg_recipient = "" := by
          rw [← hrec1]
          rw [if_neg hA] at h
          by_cases hB : (cfg2.crypto_policy == "none") = true
          · rw [if_pos hB] at h
            injection h with h2
            rw [← h2] at hrec
            exact hrec
          · rw [if_neg hB] at h
            injection h with h2
            rw [← h2] at hrec
            exact hrec
        refine ⟨hrecds, fun _ => Or.inl ?_⟩
        have : ¬ (cfg2.gpg_recipient = "" ∧ kd.2.capEncrypt = true) := by
          simpa [Bool.and_eq_true] using hA
        rcases Bool.eq_false_or_eq_true kd.2.capEncrypt with hc | hc
        · exact absurd ⟨hrec1.trans hrecds, hc⟩ this
        · exact hc

/-- When the key loop leaves the recipient key empty, it was empty all
along and no non-revoked listed key both can encrypt and has a
non-empty id. -/
theorem keyLoop_rec_empty (env : Env) (ks : List (String × KeyDetails)) :
    ∀ ds ds2, keyLoop env ks ds = .ok ds2 → ds2.cfg.gpg_recipient = "" →
      ds.cfg.gpg_recipient = "" ∧
      (∀ kd ∈ ks, isRevoked env.today kd.2 = false →
        kd.2.capEncrypt = false ∨ kd.1 = "") := by
  induction ks with
  | nil =>
    intro ds ds2 h hrec
    simp only [keyLoop] at h
    injection h with h2
    subst h2
    exact ⟨hrec, fun kd hkd => absurd hkd (List.not_mem_nil kd)⟩
  | cons kd0 rest ih =>
    intro ds ds2 h hrec
    obtain ⟨dsm, hs, hl⟩ := keyLoop_inv env kd0 rest ds ds2 h
    obtain ⟨hm, hrest⟩ := ih dsm ds2 hl hrec
    obtain ⟨hd, hhead⟩ := keyStep_rec_empty env ds kd0 dsm hs hm
    refine ⟨hd, fun kd hkd => ?_⟩
    rcases List.mem_cons.1 hkd with he0 | hkd2
    · subst he0
      exact hhead
    · exact hrest kd hkd2

/-- When a key step leaves the crypto policy at none, it was none
before and the key was revoked. -/
theorem keyStep_policy (env : Env) (ds : DiscoSt) (kd : String × KeyDetails)
    (ds2 : DiscoSt) (h : keyStep env ds kd = .ok ds2)
    (hpol : ds2.cfg.crypto_policy = "none") :
    ds.cfg.crypto_policy = "none" ∧ isRevoked env.today kd.2 = true := by
  by_cases hr : isRevoked env.today kd.2 = true
  · unfold keyStep at h
    rw [if_pos hr] at h
    injection h with h2
    subst h2
    exact ⟨hpol, hr⟩
  · exfalso
    unfold keyStep at h
    rw [if_neg hr] at h
    cases hul : uidLoop kd.2.uids ds.cfg with
    | error err =>
      obtain ⟨m, cfg2⟩ := err
      simp only [hul] at h
      cases h
    | ok cfg2 =>
      simp only [hul] at h
      by_cases hA : (cfg2.gpg_recipient == "" && kd.2.capEncrypt) = true
      · rw [if_pos hA] at h
        by_cases hB : (({ cfg2 with gpg_recipient := kd.1 } : Config).crypto_policy == "none") = true
        · rw [if_pos hB] at h
          injection h with h2
          rw [← h2] at hpol
          simp at hpol
        · rw [if_neg hB] at h
          injection h with h2
          rw [← h2] at hpol
          exact hB (by simpa using hpol)
      · rw [if_neg hA] at h
        by_cases hB : (cfg2.crypto_policy == "none") = true
        · rw [if_pos hB] at h
          injection h with h2
          rw [← h2] at hpol
          simp at hpol
        · rw [if_neg hB] at h
          injection h with h2
          rw [← h2] at hpol
          exact hB (by simpa using hpol)

/-- When the key loop leaves the crypto policy at none, every listed
key was revoked. -/
theorem keyLoop_policy (env : Env) (ks : List (String × KeyDetails)) :
    ∀ ds ds2, keyLoop env ks ds = .ok ds2 → ds2.cfg.crypto_policy = "none" →
      ds.cfg.crypto_policy = "none" ∧
      (∀ kd ∈ ks, isRevoked env.today kd.2 = true) := by
  induction ks with
  | nil =>
    intro ds ds2 h hpol
    simp only [keyLoop] at h
    injection h with h2
    subst h2
    exact ⟨hpol, fun kd hkd => absurd hkd (List.not_mem_nil kd)⟩
  | cons kd0 rest ih =>
    intro ds ds2 h hpol
    obtain ⟨dsm, hs, hl⟩ := keyLoop_inv env kd0 rest ds ds2 h
    obtain ⟨hm, hrest⟩ := ih dsm ds2 hl hpol
    obtain ⟨hd, hhead⟩ := keyStep_policy env ds kd0 dsm hs hm
    refine ⟨hd, fun kd hkd => ?_⟩
    rcases List.mem_cons.1 hkd with he0 | hkd2
    · subst he0
      exact hhead
    · exact hrest kd hkd2

/-- Membership in the base list survives `appendMissing`. -/
theorem appendMissing_mono (ys : List String) :
    ∀ xs x, x ∈ xs → x ∈ appendMissing xs ys := by
  induction ys with
  | nil =>
    intro xs x hx
    exact hx
  | cons p rest ih =>
    intro xs x hx
    show x ∈ appendMissing (if xs.contains p then xs else xs ++ [p]) rest
    split
    · exact ih xs x hx
    · exact ih (xs ++ [p]) x (List.mem_append_left _ hx)

/-- Every element of the appended list is present afterwards. -/
theorem appendMissing_mem (ys : List String) :
    ∀ xs y, y ∈ ys → y ∈ appendMissing xs ys := by
  induction ys with
  | nil =>
    intro xs y hy
    cases hy
  | cons p rest ih =>
    intro xs y hy
    rcases List.mem_cons.1 hy with he | hy2
    · subst he
      show y ∈ appendMissing (if xs.contains y then xs else xs ++ [y]) rest
      split
      · next hc => exact appendMissing_mono rest xs y (by simpa [List.contains] using hc)
      · exact appendMissing_mono rest (xs ++ [y]) y (by simp)
    · show y ∈ appendMissing (if xs.contains p then xs else xs ++ [p]) rest
      split
      · exact ih xs y hy2
      · exact ih (xs ++ [p]) y hy2

/-- Appending a list whose elements are all present is the identity. -/
theorem appendMissing_id (ys : List String) :
    ∀ xs, (∀ y ∈ ys, y ∈ xs) → appendMissing xs ys = xs := by
  induction ys with
  | nil =>
    intro xs _
    rfl
  | cons p rest ih =>
    intro xs hall
    show appendMissing (if xs.contains p then xs else xs ++ [p]) rest = xs
    rw [if_pos (by rw [List.contains]; exact List.elem_iff.2 (hall p (List.mem_cons_self p rest)))]
    exact ih xs (fun y hy => hall y (List.mem_cons_of_mem p hy))

/-- The plugin stage establishes the plugin memberships. -/
theorem pluginStage_plugins (env : Env) (st : St) :
    (∀ p ∈ PLUGINS, p ∈ (pluginStage env st).cfg.plugins) ∧
    (env.spambayesInstalled = true → "autotag_sb" ∈ (pluginStage env st).cfg.plugins) := by
  unfold pluginStage
  cases hb : env.spambayesInstalled
  · simp only [Bool.false_eq_true, if_false]
    exact ⟨fun p hp => appendMissing_mem PLUGINS st.cfg.plugins p hp,
           fun hc => by cases hc⟩
  · simp only [if_true]
    by_cases hc : (appendMissing st.cfg.plugins PLUGINS).contains "autotag_sb" = true
    · rw [if_pos hc]
      exact ⟨fun p hp => appendMissing_mem PLUGINS st.cfg.plugins p hp,
             fun _ => by rw [List.contains] at hc; exact List.elem_iff.1 hc⟩
    · rw [if_neg hc]
      exact ⟨fun p hp => List.mem_append_left _ (appendMissing_mem PLUGINS st.cfg.plugins p hp),
             fun _ => by simp⟩

/-- A plugin stage whose work is already done only touches the
events. -/
theorem pluginStage_noop (env : Env) (c : Config) (ev : List Event)
    (h1 : ∀ p ∈ PLUGINS, p ∈ c.plugins)
    (h2 : env.spambayesInstalled = true → "autotag_sb" ∈ c.plugins) :
    ∃ ev2, pluginStage env ⟨c, ev⟩ = ⟨c, ev2⟩ := by
  unfold pluginStage
  have hid : appendMissing c.plugins PLUGINS = c.plugins := appendMissing_id PLUGINS c.plugins h1
  cases hb : env.spambayesInstalled
  · refine ⟨ev ++ [.warning "Please install spambayes for super awesome spam filtering"], ?_⟩
    simp only [Bool.false_eq_true, if_false, hid]
  · refine ⟨ev, ?_⟩
    simp only [if_true, hid]
    rw [if_pos (by rw [List.contains]; exact List.elem_iff.2 (h2 hb))]

/-- The vcard stage always leaves both importer lists non-empty (the
keyring one only when the keyring home exists). -/
theorem vcardStage_filled (env : Env) (st : St) :
    ¬ (vcardStage env st).cfg.vcardGravatar = [] ∧
    (env.gpgHomeExists = true → ¬ (vcardStage env st).cfg.vcardGpg = []) := by
  constructor
  · unfold vcardStage
    rcases Bool.eq_false_or_eq_true st.cfg.vcardGravatar.isEmpty with h1 | h1 <;>
      simp only [h1, Bool.false_eq_true, if_false, if_true] <;>
      split <;>
      simp_all [List.isEmpty_iff]
  · intro hg
    unfold vcardStage
    rcases Bool.eq_false_or_eq_true st.cfg.vcardGravatar.isEmpty with h1 | h1 <;>
      rcases Bool.eq_false_or_eq_true st.cfg.vcardGpg.isEmpty with h2 | h2 <;>
      simp only [h1, h2, hg, Bool.false_eq_true, if_false, if_true, Bool.true_and] <;>
      simp_all [List.isEmpty_iff]

/-- A vcard stage whose work is already done is the identity. -/
theorem vcardStage_noop (env : Env) (st : St)
    (h1 : ¬ st.cfg.vcardGravatar = [])
    (h2 : env.gpgHomeExists = true → ¬ st.cfg.vcardGpg = []) :
    vcardStage env st = st := by
  unfold vcardStage
  have hg1 : st.cfg.vcardGravatar.isEmpty = false := by
    rcases Bool.eq_false_or_eq_true st.cfg.vcardGravatar.isEmpty with hb | hb
    · exact absurd (by simpa [List.isEmpty_iff] using hb) h1
    · exact hb
  have hgpg : (env.gpgHomeExists && st.cfg.vcardGpg.isEmpty) = false := by
    rcases Bool.eq_false_or_eq_true env.gpgHomeExists with hb | hb
    · rcases Bool.eq_false_or_eq_true st.cfg.vcardGpg.isEmpty with hb2 | hb2
      · exact absurd (by simpa [List.isEmpty_iff] using hb2) (h2 hb)
      · simp [hb2]
    · simp [hb]
  simp [hg1, hgpg]

/-- The autotag stage guarantees a rule once the autotagger plugin is
active. -/
theorem autotagStage_filled (st : St) :
    "autotag_sb" ∈ (autotagStage st).cfg.plugins → ¬ (autotagStage st).cfg.autotag = [] := by
  unfold autotagStage
  split
  · intro _
    simp
  · next hc =>
    intro hmem h0
    apply hc
    simp only [Bool.and_eq_true, beq_iff_eq]
    exact ⟨by rw [List.contains]; exact List.elem_iff.2 (by simpa using hmem),
           by simp [h0]⟩

/-- An autotag stage whose work is already done is the identity. -/
theorem autotagStage_noop (st : St)
    (h : "autotag_sb" ∈ st.cfg.plugins → ¬ st.cfg.autotag = []) :
    autotagStage st = st := by
  unfold autotagStage
  by_cases hc : (st.cfg.plugins.contains "autotag_sb" && st.cfg.autotag.length == 0) = true
  · exfalso
    rw [Bool.and_eq_true] at hc
    obtain ⟨hm, hl⟩ := hc
    refine h ?_ ?_
    · rw [List.contains] at hm
      exact List.elem_iff.1 hm
    · simpa using hl
  · rw [if_neg hc]

/-- A tag stage over an already canonical store is the identity. -/
theorem tagStage_noop (env : Env) (c : Config) (ev : List Event)
    (h : ∀ e ∈ canonicalTable, tagFixed e.1 e.2 c.tags) :
    tagStage env ⟨c, ev⟩ = .ok ⟨c, ev⟩ := by
  unfold tagStage
  rw [show (⟨c, ev⟩ : St).cfg.tags = c.tags from rfl,
      tagLoop_fixed_id env canonicalTable c.tags [] h]
  simp

/-- The obfuscation stage leaves its own trigger disabled. -/
theorem obfuscationStage_fixed (env : Env) (st : St) :
    (obfuscationStage env st).cfg.gpg_recipient = "" ∨ env.indexBuilt = true ∨
    ¬ (obfuscationStage env st).cfg.obfuscate_index = "" := by
  unfold obfuscationStage
  by_cases hc : (st.cfg.gpg_recipient != "" && !env.indexBuilt &&
      st.cfg.obfuscate_index == "") = true
  · rw [if_pos hc]
    right
    right
    simpa using sha512b64_ne_empty env.urandom st.cfg.gpg_recipient env.timeNow
  · rw [if_neg hc]
    by_cases h1 : st.cfg.gpg_recipient = ""
    · exact Or.inl h1
    · by_cases h2 : env.indexBuilt = true
      · exact Or.inr (Or.inl h2)
      · refine Or.inr (Or.inr fun hsalt => hc ?_)
        have h2f : env.indexBuilt = false := by
          rcases Bool.eq_false_or_eq_true env.indexBuilt with hb | hb
          · exact absurd hb h2
          · exact hb
        simp [h1, h2f, hsalt]

/-- An obfuscation stage whose trigger is disabled is the identity. -/
theorem obfuscationStage_noop (env : Env) (st : St)
    (h : st.cfg.gpg_recipient = "" ∨ env.indexBuilt = true ∨
         ¬ st.cfg.obfuscate_index = "") :
    obfuscationStage env st = st := by
  unfold obfuscationStage
  by_cases hc : (st.cfg.gpg_recipient != "" && !env.indexBuilt &&
      st.cfg.obfuscate_index == "") = true
  · exfalso
    rw [Bool.and_eq_true] at hc
    obtain ⟨hrb, hsalt⟩ := hc
    rw [Bool.and_eq_true] at hrb
    obtain ⟨hrec, hbuilt⟩ := hrb
    rcases h with h | h | h
    · rw [h] at hrec
      simp at hrec
    · rw [h] at hbuilt
      simp at hbuilt
    · exact h (by simpa using hsalt)
  · rw [if_neg hc]

/-- A uid loop whose emails are all registered already is the identity
on the config. -/
theorem uidLoop_all_present (us : List Uid) (cfg : Config)
    (h : ∀ u ∈ us, ∀ e2, u.email = some e2 → ¬ e2 = "" →
      e2 ∈ profileEmails cfg.profiles) :
    uidLoop us cfg = .ok cfg := by
  induction us with
  | nil => rfl
  | cons u rest ih =>
    have hstep : uidStep cfg u = .ok cfg := by
      cases he : u.email with
      | none => simp [uidStep, he]
      | some e2 =>
        by_cases h1 : e2 = ""
        · simp [uidStep, he, h1]
        · have hmem : e2 ∈ profileEmails cfg.profiles :=
            h u (List.mem_cons_self u rest) e2 he h1
          simp [uidStep, he, h1, hmem]
    rw [uidLoop, hstep]
    exact ih (fun u2 hu2 => h u2 (List.mem_cons_of_mem u hu2))

/-- Rewriting the recipient key to the value it already holds is the
identity on the config. -/
theorem config_rec_eta (c : Config) (v : String) (h : c.gpg_recipient = v) :
    { c with gpg_recipient := v } = c := by
  cases c
  simp only at h
  simp [h]

/-- A key step whose work is already done leaves the config
untouched. -/
theorem keyStep_noop (env : Env) (c : Config) (ev : List Event) (acc : List String)
    (kd : String × KeyDetails)
    (hemails : isRevoked env.today kd.2 = false →
      ∀ u ∈ kd.2.uids, ∀ e2, u.email = some e2 → ¬ e2 = "" →
        e2 ∈ profileEmails c.profiles)
    (hrec : c.gpg_recipient = "" → isRevoked env.today kd.2 = false →
      kd.2.capEncrypt = false ∨ kd.1 = "")
    (hpol : isRevoked env.today kd.2 = false → ¬ c.crypto_policy = "none") :
    ∃ ev2 acc2, keyStep env ⟨c, ev, acc⟩ kd = .ok ⟨c, ev2, acc2⟩ := by
  by_cases hr : isRevoked env.today kd.2 = true
  · exact ⟨ev, acc, by unfold keyStep; rw [if_pos hr]⟩
  · have hrev : isRevoked env.today kd.2 = false := by
      rcases Bool.eq_false_or_eq_true (isRevoked env.today kd.2) with hb | hb
      · exact absurd hb hr
      · exact hb
    have hul : uidLoop kd.2.uids c = .ok c := uidLoop_all_present _ _ (hemails hrev)
    have hpf : (c.crypto_policy == "none") = false := by
      rcases Bool.eq_false_or_eq_true (c.crypto_policy == "none") with hb | hb
      · exact absurd (by simpa using hb) (hpol hrev)
      · exact hb
    by_cases hA : (c.gpg_recipient == "" && kd.2.capEncrypt) = true
    · have hA2 := Bool.and_eq_true _ _ ▸ hA
      have hrece : c.gpg_recipient = "" := by simpa using hA2.1
      rcases hrec hrece hrev with hcap | hk1
      · rw [hcap] at hA2
        cases hA2.2
      · have heta : ({ c with gpg_recipient := kd.1 } : Config) = c :=
          config_rec_eta c kd.1 (by rw [hrece, hk1])
        refine ⟨ev ++ [.notify ("Encrypting config to " ++ kd.1)], acc ++ [kd.1], ?_⟩
        unfold keyStep
        rw [if_neg hr]
        simp only [hul, hA, if_true, heta, hpf, Bool.false_eq_true, if_false]
    · refine ⟨ev, acc ++ [kd.1], ?_⟩
      unfold keyStep
      rw [if_neg hr]
      simp only [hul, hA, Bool.false_eq_true, if_false, hpf]

/-- A key loop whose work is already done leaves the config
untouched. -/
theorem keyLoop_noop (env : Env) (ks : List (String × KeyDetails)) :
    ∀ c ev acc,
      (∀ kd ∈ ks, isRevoked env.today kd.2 = false →
        ∀ u ∈ kd.2.uids, ∀ e2, u.email = some e2 → ¬ e2 = "" →
          e2 ∈ profileEmails c.profiles) →
      (c.gpg_recipient = "" → ∀ kd ∈ ks, isRevoked env.today kd.2 = false →
        kd.2.capEncrypt = false ∨ kd.1 = "") →
      (c.crypto_policy = "none" → ∀ kd ∈ ks, isRevoked env.today kd.2 = true) →
      ∃ ev2 acc2, keyLoop env ks ⟨c, ev, acc⟩ = .ok ⟨c, ev2, acc2⟩ := by
  induction ks with
  | nil =>
    intro c ev acc _ _ _
    exact ⟨ev, acc, rfl⟩
  | cons kd rest ih =>
    intro c ev acc hemails hrec hpol
    obtain ⟨ev1, acc1, hstep⟩ := keyStep_noop env c ev acc kd
      (fun hrev => hemails kd (List.mem_cons_self kd rest) hrev)
      (fun h0 hrev => hrec h0 kd (List.mem_cons_self kd rest) hrev)
      (fun hrev hn => absurd (hpol hn kd (List.mem_cons_self kd rest)) (by simp [hrev]))
    obtain ⟨ev2, acc2, hloop⟩ := ih c ev1 acc1
      (fun kd2 h2 => hemails kd2 (List.mem_cons_of_mem kd h2))
      (fun h0 kd2 h2 => hrec h0 kd2 (List.mem_cons_of_mem kd h2))
      (fun h0 kd2 h2 => hpol h0 kd2 (List.mem_cons_of_mem kd h2))
    exact ⟨ev2, acc2, by rw [keyLoop, hstep]; exact hloop⟩

/-- A steady state of the discovery stage: every listed key is already
reflected in the config. -/
@[reducible] def discoFixed (env : Env) (c : Config) : Prop :=
  (∀ kd ∈ env.keys, isRevoked env.today kd.2 = false →
    ∀ u ∈ kd.2.uids, ∀ e2, u.email = some e2 → ¬ e2 = "" →
      e2 ∈ profileEmails c.profiles) ∧
  (c.gpg_recipient = "" → ∀ kd ∈ env.keys, isRevoked env.today kd.2 = false →
    kd.2.capEncrypt = false ∨ kd.1 = "") ∧
  (c.crypto_policy = "none" → ∀ kd ∈ env.keys, isRevoked env.today kd.2 = true)

/-- A discovery stage whose work is already done leaves the config
untouched. -/
theorem discoveryStage_noop (env : Env) (c : Config) (ev : List Event)
    (hd : env.gnupgAvailable = true → discoFixed env c) :
    ∃ ev2, discoveryStage env ⟨c, ev⟩ = .ok ⟨c, ev2⟩ := by
  unfold discoveryStage
  cases hg : env.gnupgAvailable
  · exact ⟨ev ++ [.warning "Oh no, PGP/GPG support is unavailable!"], by simp⟩
  · obtain ⟨h1, h2, h3⟩ := hd hg
    obtain ⟨ev2, acc2, hloop⟩ := keyLoop_noop env env.keys c ev [] h1 h2 h3
    refine ⟨ev2, ?_⟩
    simp only [if_true]
    rw [show (⟨(⟨c, ev⟩ : St).cfg, (⟨c, ev⟩ : St).events, []⟩ : DiscoSt) =
          ⟨c, ev, []⟩ from rfl, hloop]

/-- The steady state one successful run establishes: a second run can
change nothing. -/
@[reducible] def runFixed (env : Env) (c : Config) : Prop :=
  c.lockdown = false ∧
  (∀ e ∈ canonicalTable, tagFixed e.1 e.2 c.tags) ∧
  (∀ p ∈ PLUGINS, p ∈ c.plugins) ∧
  (env.spambayesInstalled = true → "autotag_sb" ∈ c.plugins) ∧
  ¬ c.vcardGravatar = [] ∧
  (env.gpgHomeExists = true → ¬ c.vcardGpg = []) ∧
  ("autotag_sb" ∈ c.plugins → ¬ c.autotag = []) ∧
  (env.gnupgAvailable = true → discoFixed env c) ∧
  (c.gpg_recipient = "" ∨ env.indexBuilt = true ∨ ¬ c.obfuscate_index = "")

/-- A run on a steady-state config succeeds and returns it unchanged. -/
theorem run_of_fixed (env : Env) (c : Config) (hf : runFixed env c) :
    ∃ ev2, run env c = ⟨.success "Performed initial Mailpile setup", c, ev2⟩ := by
  obtain ⟨hlock, htags, hplug, hsb, hgrav, hgpg, hauto, hdisco, hobf⟩ := hf
  have htstage : tagStage env ⟨c, []⟩ = .ok ⟨c, []⟩ := tagStage_noop env c [] htags
  obtain ⟨evp, hpstage⟩ := pluginStage_noop env c [] hplug hsb
  have hvstage : vcardStage env ⟨c, evp ++ [.configSave, .configLoad]⟩ =
      ⟨c, evp ++ [.configSave, .configLoad]⟩ :=
    vcardStage_noop env ⟨c, evp ++ [.configSave, .configLoad]⟩ hgrav hgpg
  have hastage : autotagStage ⟨c, evp ++ [.configSave, .configLoad]⟩ =
      ⟨c, evp ++ [.configSave, .configLoad]⟩ :=
    autotagStage_noop ⟨c, evp ++ [.configSave, .configLoad]⟩ hauto
  obtain ⟨evd, hdstage⟩ :=
    discoveryStage_noop env c (evp ++ [.configSave, .configLoad]) hdisco
  have hostage : obfuscationStage env ⟨c, evd⟩ = ⟨c, evd⟩ :=
    obfuscationStage_noop env ⟨c, evd⟩ hobf
  refine ⟨evd ++ [.configSave], ?_⟩
  unfold run
  rw [if_neg (by simp [hlock])]
  rw [htstage]
  simp only []
  rw [hpstage]
  simp only []
  rw [hvstage, hastage, hdstage]
  simp only []
  rw [hostage]

/-- One successful run establishes the steady state. -/
theorem run_establishes (env : Env) (cfg : Config) (m : String) (cfg2 : Config)
    (ev : List Event) (h : run env cfg = ⟨.success m, cfg2, ev⟩) :
    runFixed env cfg2 := by
  have htags : ∀ e ∈ canonicalTable, tagFixed e.1 e.2 cfg2.tags := by
    obtain ⟨ts2, hloop, htags2⟩ := run_tags env cfg m cfg2 ev h
    intro e he
    rw [htags2]
    exact tagLoop_all_fixed env canonicalTable ⟨cfg.tags, []⟩ ts2
      canonicalTable_keys_nodup canonicalTable_attrs_nodup hloop e he
  unfold run at h
  by_cases hl : cfg.lockdown = true
  · rw [if_pos hl] at h
    cases h
  · rw [if_neg hl] at h
    cases htag : tagStage env ⟨cfg, []⟩ with
    | error e0 =>
      obtain ⟨m2, st⟩ := e0
      rw [htag] at h
      cases h
    | ok st1 =>
      rw [htag] at h
      simp only [] at h
      obtain ⟨t1, -, -, -, -, -, -, -, -, -⟩ := tagStage_keeps env ⟨cfg, []⟩
      rw [htag] at t1
      simp only [stOf] at t1
      have hplug2 := pluginStage_plugins env st1
      obtain ⟨p1, -, -, -, -, -, -, -, -, -⟩ := pluginStage_keeps env st1
      set st2 := pluginStage env st1 with hst2
      set st3 : St := ⟨st2.cfg, st2.events ++ [.configSave, .configLoad]⟩ with hst3
      have hvc := vcardStage_filled env st3
      obtain ⟨v1, -, v3, -, -, -, -, -, -⟩ := vcardStage_keeps env st3
      set st4 := vcardStage env st3 with hst4
      have hat := autotagStage_filled st4
      obtain ⟨a1, -, a3, a4, a5, -, -, -, -, -⟩ := autotagStage_keeps st4
      set st5 := autotagStage st4 with hst5
      obtain ⟨d1, -, d3, d4, d5, d6, -, -⟩ := discoveryStage_keeps env st5
      cases hdisc : discoveryStage env st5 with
      | error e0 =>
        obtain ⟨m2, st⟩ := e0
        rw [hdisc] at h
        cases h
      | ok st6 =>
        rw [hdisc] at h
        simp only [] at h
        rw [hdisc] at d1 d3 d4 d5 d6
        simp only [stOf] at d1 d3 d4 d5 d6
        have hofix := obfuscationStage_fixed env st6
        obtain ⟨o1, -, o3, o4, o5, o6, o7, o8, o9⟩ := obfuscationStage_keeps env st6
        have hcfg2 : cfg2 = (obfuscationStage env st6).cfg := by
          cases h
          rfl
        rw [hcfg2]
        refine ⟨?_, by rw [← hcfg2]; exact htags, ?_, ?_, ?_, ?_, ?_, ?_, ?_⟩
        · rw [o1, d1, a1, v1]
          rw [show st3.cfg.lockdown = st2.cfg.lockdown from rfl, p1, t1]
          simpa using hl
        · intro p hp
          rw [o3, d3, a3, v3]
          rw [show st3.cfg.plugins = st2.cfg.plugins from rfl]
          exact hplug2.1 p hp
        · intro hins
          rw [o3, d3, a3, v3]
          rw [show st3.cfg.plugins = st2.cfg.plugins from rfl]
          exact hplug2.2 hins
        · rw [o4, d4, a4]
          exact hvc.1
        · intro hg
          rw [o5, d5, a5]
          exact hvc.2 hg
        · intro hmem
          rw [o6, d6]
          apply hat
          rw [o3, d3] at hmem
          exact hmem
        · intro hgnupg
          unfold discoveryStage at hdisc
          rw [if_pos hgnupg] at hdisc
          cases hkl : keyLoop env env.keys ⟨st5.cfg, st5.events, []⟩ with
          | error e0 =>
            obtain ⟨m2, ds⟩ := e0
            rw [hkl] at hdisc
            simp only [] at hdisc
            cases hdisc
          | ok ds =>
            rw [hkl] at hdisc
            simp only [] at hdisc
            injection hdisc with hdisc2
            have hst6 : st6.cfg = ds.cfg := by rw [← hdisc2]
            refine ⟨?_, ?_, ?_⟩
            · intro kd hkd hrev u hu e2 he hne
              rw [o7, hst6]
              exact keyLoop_emails env env.keys _ ds hkl kd hkd hrev u hu e2 he hne
            · intro hrec0 kd hkd hrev
              rw [o8, hst6] at hrec0
              exact (keyLoop_rec_empty env env.keys _ ds hkl hrec0).2 kd hkd hrev
            · intro hpol0 kd hkd
              rw [o9, hst6] at hpol0
              exact (keyLoop_policy env env.keys _ ds hkl hpol0).2 kd hkd
        · exact hofix

/-- C1: running the Setup command twice in a row with no external state
change leaves the configuration after the second run identical to the
configuration after the first run, and the second run succeeds with the
same message. -/
theorem setup_idempotent (env : Env) (cfg : Config) (m : String) (cfg2 : Config)
    (ev : List Event) (h : run env cfg = ⟨.success m, cfg2, ev⟩) :
    ∃ ev2, run env cfg2 = ⟨.success m, cfg2, ev2⟩ := by
  have hm : m = "Performed initial Mailpile setup" := by
    unfold run at h
    by_cases hl : cfg.lockdown = true
    · rw [if_pos hl] at h
      cases h
    · rw [if_neg hl] at h
      cases htag : tagStage env ⟨cfg, []⟩ with
      | error e0 =>
        obtain ⟨m2, st⟩ := e0
        rw [htag] at h
        cases h
      | ok st1 =>
        rw [htag] at h
        simp only [] at h
        cases hdisc : discoveryStage env
            (autotagStage (vcardStage env
              ⟨(pluginStage env st1).cfg,
               (pluginStage env st1).events ++ [.configSave, .configLoad]⟩)) with
        | error e0 =>
          obtain ⟨m2, st⟩ := e0
          rw [hdisc] at h
          cases h
        | ok st6 =>
          rw [hdisc] at h
          simp only [] at h
          cases h
          rfl
  subst hm
  exact run_of_fixed env cfg2 (run_establishes env cfg _ cfg2 ev h)

/-- Witness for idempotence: a second run on the state left by a first
concrete run returns that state unchanged. -/
theorem setup_idempotent_witness :
    ∃ ev2, run plainEnv ((run plainEnv freshConfig).cfg) =
      ⟨.success "Performed initial Mailpile setup", (run plainEnv freshConfig).cfg, ev2⟩ :=
  setup_idempotent plainEnv freshConfig "Performed initial Mailpile setup"
    ((run plainEnv freshConfig).cfg) ((run plainEnv freshConfig).events) (by decide)

/-- Witness for tag-taxonomy uniqueness after one concrete run. -/
theorem tag_taxonomy_witness :
    countSlug ((run plainEnv freshConfig).cfg).tags "mp_ham" = 1 ∧
    List.find? (fun tg => tg.slug == "mp_ham") ((run plainEnv freshConfig).cfg).tags =
      some ⟨"mp_ham", [("type", .s "ham"), ("label", .b false),
                       ("display", .s "invisible")]⟩ :=
  tag_taxonomy plainEnv [] freshConfig ((run plainEnv freshConfig).cfg)
    ("mp_ham", [("type", .s "ham"), ("label", .b false), ("display", .s "invisible")])
    (by decide) rfl (by decide)

end Mailpile
